import Mathlib

/-!
# ZhiLog comment-thread / streaming core: shallow embedding

This file embeds, in Lean, the client-side comment-thread reconciler, the
chat-stream buffering loop, the page search, the localStorage round trip and
the chat-history rehydration of the ZhiLog client
(`src/client/src/components/CommentStyleChat.tsx`, the `PaperView` page and
the `usePdfSearch` hook), and proves or refutes the specified properties.

Strings manipulated character-wise (stream buffers, JSON text, page text)
are modelled as `List Char`; JavaScript string primitives used by the code
(`split`, `includes`, `toLowerCase`, `trim`, `JSON.parse`) are embedded as
executable Lean functions on that representation.
-/

namespace ZhiLog

abbrev Chars := List Char

/-- `startsWith pat l` : does `l` begin with `pat`?  (JS `String.startsWith`,
used here to embed the left-to-right scan of `String.split`.) -/
def startsWith : Chars → Chars → Bool
  | [], _ => true
  | _ :: _, [] => false
  | p :: ps, c :: cs => p == c && startsWith ps cs

/-- `occursIn needle hay` : JS `hay.includes(needle)`. -/
def occursIn (needle : Chars) : Chars → Bool
  | [] => startsWith needle []
  | c :: rest => startsWith needle (c :: rest) || occursIn needle rest

/-! ## `String.split` on a literal delimiter

`splitOnD D l` embeds JavaScript `l.split(D)` for a non-empty literal
delimiter `D`: scan left to right, each non-overlapping occurrence of `D`
ends the current part.  `"".split(D) = [""]` and a trailing delimiter
yields a trailing `""`, exactly as in JS. -/

def splitOnFuel (D : Chars) : Nat → Chars → List Chars
  | 0, l => [l]
  | _ + 1, [] => [[]]
  | fuel + 1, c :: rest =>
    if startsWith D (c :: rest) then
      [] :: splitOnFuel D fuel (rest.drop (D.length - 1))
    else
      match splitOnFuel D fuel rest with
      | [] => [[c]]
      | p :: ps => (c :: p) :: ps

/-- `l.split(D)`.  The fuel `l.length + 1` strictly dominates the scan (each
step consumes at least one character), so this is the plain left-to-right
recursion; see `splitOnD_nil` / `splitOnD_cons` below for its defining
equations. -/
def splitOnD (D l : Chars) : List Chars := splitOnFuel D (l.length + 1) l

/-- The last part returned by the splitter: the remainder after the last
delimiter occurrence (the loop keeps it as its buffer). -/
def lastPart (D l : Chars) : Chars := (splitOnD D l).getLastD []

/-- The complete, delimiter-terminated parts (everything but the remainder). -/
def initParts (D l : Chars) : List Chars := (splitOnD D l).dropLast

/-! ## The stream buffering loop

Both `CommentStyleChat.handleThreadMessage` and `PaperView.handleSubmit`
read the response stream with:

    buffer += chunk;
    const parts = buffer.split(END_DELIMITER);
    buffer = parts.pop() || '';
    for (const part of parts) { ... }

`streamLoop` embeds that loop: it returns the sequence of complete parts
handed to the event processor, in order, together with the final buffer
(which the code merely warns about and discards when `done`). -/

/-- `const END_DELIMITER = "END_OF_STREAM";` -/
def END_DELIMITER : Chars := "END_OF_STREAM".toList

def streamLoop (D : Chars) : List Chars → Chars → List Chars × Chars
  | [], buf => ([], buf)
  | chunk :: rest, buf =>
    let parts := splitOnD D (buf ++ chunk)
    let tail := streamLoop D rest (parts.getLastD [])
    (parts.dropLast ++ tail.1, tail.2)

/-- Reference computation, from the spec's words: split the whole
concatenated payload on the literal delimiter and keep each complete
(delimiter-terminated) part; the trailing remainder is not an event. -/
def referenceEvents (D payload : Chars) : List Chars := initParts D payload

/-! ## Page search (`usePdfSearch.performSearch`)

The hook iterates over every page's text-layer `textContent`, collects the
indexes of the pages whose lowercased text contains the lowercased query
(`text.toLowerCase().includes(searchText.toLowerCase())`), then either
selects the first match and scrolls to it, or enters an explicit
not-found state.  Pages are modelled as their extracted text; the
`scrollIntoView` side effect is recorded as the target page index. -/

structure SearchState where
  searchResults : List Nat
  currentMatch : Int
  notFound : Bool
  scrolledToPage : Option Nat
deriving DecidableEq, Repr

def lowerChars (l : Chars) : Chars := l.map Char.toLower

/-- One page's test in the `forEach`:
`text.toLowerCase().includes(searchText.toLowerCase())`. -/
def pageMatches (searchText text : Chars) : Bool :=
  occursIn (lowerChars searchText) (lowerChars text)

def performSearch (pages : List Chars) (searchText : Chars) : SearchState :=
  let results := (List.range pages.length).filter
    (fun i => pageMatches searchText (pages.getD i []))
  match results with
  | [] =>
    { searchResults := [], currentMatch := -1, notFound := true,
      scrolledToPage := none }
  | r :: rs =>
    { searchResults := r :: rs, currentMatch := 0, notFound := false,
      scrolledToPage := some r }

/-! ## JSON values and `JSON.parse`

The stream events are JSON texts; both stream handlers call
`JSON.parse(part)` on each complete part and then branch on the untyped
`event.type` / `event.content` fields.  `Jv` is the parsed-value universe
(numbers restricted to integers — every payload this client handles uses
only strings, objects and arrays) and `jsonParse` an executable parser for
it; a throwing `JSON.parse` is modelled as `none`. -/

inductive Jv where
  | jnull : Jv
  | jbool : Bool → Jv
  | jnum : Int → Jv
  | jstr : String → Jv
  | jarrNil : Jv
  | jarrCons : Jv → Jv → Jv
  | jobjNil : Jv
  | jobjCons : String → Jv → Jv → Jv
deriving DecidableEq, Repr

/-- Build an array value from a Lean list (arrays and objects are kept in
cons form so that every recursion over `Jv` is structural). -/
def jarrOfList : List Jv → Jv
  | [] => .jarrNil
  | v :: vs => .jarrCons v (jarrOfList vs)

def jobjOfFields : List (String × Jv) → Jv
  | [] => .jobjNil
  | (k, v) :: fs => .jobjCons k v (jobjOfFields fs)

def isWsChar (c : Char) : Bool := c == ' ' || c == '\n' || c == '\t' || c == '\r'

def skipWs (l : Chars) : Chars := l.dropWhile isWsChar

/-- Parse the body of a JSON string after the opening quote, handling the
escapes that occur in this client's payloads. -/
def pStrBody : Chars → Option (String × Chars)
  | [] => none
  | '"' :: rest => some ("", rest)
  | '\\' :: e :: rest =>
    match pStrBody rest with
    | none => none
    | some (s, r) =>
      let d : Char :=
        if e = 'n' then '\n' else if e = 't' then '\t'
        else if e = 'r' then '\r' else e
      some (⟨d :: s.data⟩, r)
  | c :: rest =>
    match pStrBody rest with
    | none => none
    | some (s, r) => some (⟨c :: s.data⟩, r)

def digitsValue (l : Chars) : Int :=
  l.foldl (fun acc c => acc * 10 + (c.toNat - 48)) 0

def pNum (l : Chars) : Option (Jv × Chars) :=
  let (neg, l') := match l with
    | '-' :: rest => (true, rest)
    | _ => (false, l)
  let ds := l'.takeWhile Char.isDigit
  let r := l'.dropWhile Char.isDigit
  if ds.isEmpty then none
  else some (.jnum (if neg then -(digitsValue ds) else digitsValue ds), r)

/- The recursive descent is driven by a fuel parameter so that the parser is
structurally recursive (and therefore evaluates inside the kernel).  Mode 0
parses one value; mode 1 parses the comma-separated items of an array up to
`]` (returning them as `.jarr`); mode 2 parses the members of an object up
to the closing brace (returning them as `.jobj`).  Two units of fuel per
input character are always sufficient. -/
def pCore : Nat → Nat → Chars → Option (Jv × Chars)
  | 0, _, _ => none
  | fuel + 1, 0, l =>
    match skipWs l with
    | 'n' :: 'u' :: 'l' :: 'l' :: r => some (.jnull, r)
    | 't' :: 'r' :: 'u' :: 'e' :: r => some (.jbool true, r)
    | 'f' :: 'a' :: 'l' :: 's' :: 'e' :: r => some (.jbool false, r)
    | '"' :: r =>
      match pStrBody r with
      | none => none
      | some (s, r') => some (.jstr s, r')
    | '[' :: r =>
      match skipWs r with
      | ']' :: r' => some (.jarrNil, r')
      | r' => pCore fuel 1 r'
    | '\x7b' :: r =>
      match skipWs r with
      | '\x7d' :: r' => some (.jobjNil, r')
      | r' => pCore fuel 2 r'
    | l' => pNum l'
  | fuel + 1, 1, l =>
    match pCore fuel 0 l with
    | none => none
    | some (v, r) =>
      match skipWs r with
      | ',' :: r' =>
        match pCore fuel 1 r' with
        | some (tl, r2) => some (.jarrCons v tl, r2)
        | none => none
      | ']' :: r' => some (.jarrCons v .jarrNil, r')
      | _ => none
  | fuel + 1, 2, l =>
    match skipWs l with
    | '"' :: r =>
      match pStrBody r with
      | none => none
      | some (k, r1) =>
        match skipWs r1 with
        | ':' :: r2 =>
          match pCore fuel 0 r2 with
          | none => none
          | some (v, r3) =>
            match skipWs r3 with
            | ',' :: r4 =>
              match pCore fuel 2 r4 with
              | some (tl, r5) => some (.jobjCons k v tl, r5)
              | none => none
            | '\x7d' :: r4 => some (.jobjCons k v .jobjNil, r4)
            | _ => none
        | _ => none
    | _ => none
  | _ + 1, _ + 3, _ => none

/-- `JSON.parse(part)`: parse one value and require only whitespace after
it; any other outcome throws (modelled as `none`). -/
def jsonParse (l : Chars) : Option Jv :=
  match pCore (2 * l.length + 4) 0 l with
  | none => none
  | some (v, r) => if (skipWs r).isEmpty then some v else none

/-- Untyped JS field access `obj.field` (`undefined` is `none`).  JS keeps
the last of duplicate keys from `JSON.parse`, hence the tail-first lookup. -/
def getField : Jv → String → Option Jv
  | .jobjCons k' v rest, k =>
    match getField rest k with
    | some v' => some v'
    | none => if k' == k then some v else none
  | _, _ => none

/- JS string coercion used by `accumulatedContent += event.content`
(arrays join their elements with commas as `Array.prototype.toString`
does; plain objects coerce to `"[object Object]"`). -/
def jsToString : Jv → String
  | .jnull => "null"
  | .jbool true => "true"
  | .jbool false => "false"
  | .jnum n => toString n
  | .jstr s => s
  | .jarrNil => ""
  | .jarrCons x .jarrNil => jsToString x
  | .jarrCons x tl => jsToString x ++ "," ++ jsToString tl
  | .jobjNil => "[object Object]"
  | .jobjCons _ _ _ => "[object Object]"

/-- `x += v` where `v` may be `undefined` (a missing field). -/
def coerceContent : Option Jv → String
  | none => "undefined"
  | some v => jsToString v

/-- `!s.trim()`: the string is empty or all whitespace. -/
def isBlank (s : String) : Bool := s.toList.all isWsChar

/-! ## Chat data model (`@/lib/schema` and `CommentStyleChat.tsx`) -/

structure Citation where
  key : String
  reference : String
deriving DecidableEq, Repr

structure References where
  citations : List Citation
deriving DecidableEq, Repr

inductive Role where
  | user : Role
  | assistant : Role
deriving DecidableEq, Repr

/-- `ChatMessage { role, content, references?, id? }`.  The optional `id`
is present on messages minted in the thread panel (`Date.now().toString()`)
and absent on messages rebuilt from history. -/
structure ChatMessage where
  role : Role
  content : String
  references : Option References := none
  id : Option String := none
deriving DecidableEq, Repr

/-- `CommentThread` as declared in `CommentStyleChat.tsx`. -/
structure CommentThread where
  id : String
  highlightId : Option String := none
  selectedText : String
  messages : List ChatMessage := []
  isExpanded : Bool
  conversationId : Option String := none
deriving DecidableEq, Repr

/-- The component state touched by the thread reconciler: the thread
collection, the active thread id and the `threadStreaming` guard. -/
structure ChatPanelState where
  threads : List CommentThread
  activeThreadId : Option String := none
  threadStreaming : Option String := none
deriving DecidableEq, Repr

/-- One network stream as observed by a handler: the chunks delivered by
`reader.read()` before the stream either finishes (`dropped = false`) or
the connection fails mid-flight (`dropped = true`, reaching the outer
`catch`). -/
structure StreamOutcome where
  chunks : List Chars
  dropped : Bool
deriving Repr

/-! ## Stream event processing

Per-part body of the `for (const part of parts)` loop.  In
`handleThreadMessage` the `try { JSON.parse ... throw ... } catch
(parseError) { ... }` block surrounds the whole dispatch, so a malformed
part, an unknown `type`, a `references` event (no branch exists for it in
the thread panel) and even an `error`-typed event — whose `throw` is
immediately caught by that same `catch` — all leave the accumulator
unchanged and let the loop continue. -/

/-- `event.type === tag` for a string literal `tag`. -/
def isTypeTag (ev : Jv) (tag : String) : Bool :=
  match getField ev "type" with
  | some (.jstr s) => s == tag
  | _ => false

def threadProcessPart (acc : String) (part : Chars) : String :=
  if isBlank (String.mk part) then acc
  else
    match jsonParse part with
    | none => acc
    | some ev =>
      if isTypeTag ev "content" then acc ++ coerceContent (getField ev "content")
      else acc

/-- Accumulated assistant content after the thread panel's stream loop. -/
def threadStreamContent (chunks : List Chars) : String :=
  ((streamLoop END_DELIMITER chunks []).1).foldl threadProcessPart ""

/-- `PaperView.handleSubmit` additionally tracks the latest
`references`-typed event (`references = event.content`). -/
structure OverviewStreamAcc where
  acc : String
  refs : Option Jv

def overviewProcessPart (st : OverviewStreamAcc) (part : Chars) : OverviewStreamAcc :=
  if isBlank (String.mk part) then st
  else
    match jsonParse part with
    | none => st
    | some ev =>
      if isTypeTag ev "content" then
        { st with acc := st.acc ++ coerceContent (getField ev "content") }
      else if isTypeTag ev "references" then
        { st with refs := getField ev "content" }
      else st

def overviewStreamResult (chunks : List Chars) : OverviewStreamAcc :=
  ((streamLoop END_DELIMITER chunks []).1).foldl overviewProcessPart
    { acc := "", refs := none }

/-! ## Thread reconciler operations (`CommentStyleChat.tsx`) -/

/-- `setCommentThreads(prev => prev.map(t => t.id === threadId ? {...t,
messages: [...t.messages, m]} : t))` — the shape of every message append
in the component, including the stream-completion and error handlers. -/
def appendToThread (ts : List CommentThread) (threadId : String)
    (m : ChatMessage) : List CommentThread :=
  ts.map (fun t =>
    if t.id == threadId then { t with messages := t.messages ++ [m] } else t)

def setThreadConversationId (ts : List CommentThread) (threadId cid : String) :
    List CommentThread :=
  ts.map (fun t =>
    if t.id == threadId then { t with conversationId := some cid } else t)

/-- The fixed failure message appended by `handleThreadMessage`'s `catch`. -/
def threadErrorMessage (mid : String) : ChatMessage :=
  { role := .assistant,
    content := "Sorry, an error occurred. Please try again later.",
    references := none, id := some mid }

/-- `handleThreadMessage(threadId, message)`: look the thread up by id; if
absent (or no paper), return unchanged.  Otherwise append the user message,
bootstrap `conversationId` if the thread has none (`freshConvId` is the id
the `POST /api/conversation` collaborator returns), run the stream loop,
and on completion append one assistant message with the accumulated
content (if non-empty) — the thread panel ignores `references` events — or,
if the connection dropped (outer `catch`), append the fixed failure
message.  `finally` clears `threadStreaming`.  `uidU`/`uidA` stand for the
`Date.now().toString()` ids of the two minted messages.  Remote
`saveChatHistory` calls are fire-and-forget and not part of this state. -/
def handleThreadMessage (st : ChatPanelState) (threadId message : String)
    (freshConvId : String) (outcome : StreamOutcome) (uidU uidA : String) :
    ChatPanelState :=
  match st.threads.find? (fun t => t.id == threadId) with
  | none => st
  | some thread =>
    let ts1 := appendToThread st.threads threadId
      { role := .user, content := message, references := none, id := some uidU }
    let ts2 := if thread.conversationId = none
      then setThreadConversationId ts1 threadId freshConvId else ts1
    let acc := threadStreamContent outcome.chunks
    let ts3 :=
      if outcome.dropped then
        appendToThread ts2 threadId (threadErrorMessage uidA)
      else if acc ≠ "" then
        appendToThread ts2 threadId
          { role := .assistant, content := acc, references := none, id := some uidA }
      else ts2
    { st with threads := ts3, threadStreaming := none }

/-- `createThreadAndSend(text, message)`: scan for an existing thread with
the same `selectedText`; if found, activate it and return.  Otherwise mint
a new thread, activate it, and — when `message` is truthy — deliver it via
the deferred `handleSendMessage(newId, message)`, whose body at that point
(thread now present, `activeThreadId === newId`) reduces to the guard
check followed by `handleThreadMessage(newId, message)`. -/
def createThreadAndSend (st : ChatPanelState) (activeHighlightId : Option String)
    (newId text message : String) (freshConvId : String)
    (outcome : StreamOutcome) (uidU uidA : String) : ChatPanelState :=
  match st.threads.find? (fun t => t.selectedText == text) with
  | some existingThread => { st with activeThreadId := some existingThread.id }
  | none =>
    let newThread : CommentThread :=
      { id := newId, highlightId := activeHighlightId, selectedText := text,
        messages := [], isExpanded := true, conversationId := none }
    let st1 : ChatPanelState :=
      { st with threads := st.threads ++ [newThread],
                activeThreadId := some newId }
    if message ≠ "" then
      if isBlank message ∨ st1.threadStreaming ≠ none then st1
      else handleThreadMessage st1 newId message freshConvId outcome uidU uidA
    else st1

/-- `handleSendMessage(threadId, message)`: drop blank input and any send
while a stream is in flight; otherwise create-and-send when the thread is
missing and text is selected, else forward to the active thread. -/
def handleSendMessage (st : ChatPanelState) (threadId message : String)
    (selectedText : String) (activeHighlightId : Option String)
    (newId freshConvId : String) (outcome : StreamOutcome) (uidU uidA : String) :
    ChatPanelState :=
  if isBlank message ∨ st.threadStreaming ≠ none then st
  else
    match st.threads.find? (fun t => t.id == threadId) with
    | none =>
      if selectedText ≠ "" then
        createThreadAndSend st activeHighlightId newId selectedText message
          freshConvId outcome uidU uidA
      else
        match st.activeThreadId with
        | some a => handleThreadMessage st a message freshConvId outcome uidU uidA
        | none => st
    | some _ =>
      match st.activeThreadId with
      | some a => handleThreadMessage st a message freshConvId outcome uidU uidA
      | none => st

/-- `deleteThread(threadId)` after the user confirms and the remote delete
succeeds: filter the thread out and clear `activeThreadId` if it pointed at
the deleted thread (the localStorage mirror is handled separately). -/
def deleteThread (st : ChatPanelState) (threadId : String) : ChatPanelState :=
  { st with
    threads := st.threads.filter (fun t => !(t.id == threadId)),
    activeThreadId :=
      if st.activeThreadId = some threadId then none else st.activeThreadId }

/-! ## Overview chat (`PaperView.handleSubmit`)

The page-level chat shares the stream protocol but also handles
`references` events and, on failure, *replaces* the last message instead
of appending.  The raw parsed `references` object flows into the final
`ChatMessage` under the `Reference` type; `readReferences` reads it into
the typed record (`none` when the object does not have that shape). -/

def readCitation (v : Jv) : Option Citation :=
  match getField v "key", getField v "reference" with
  | some (.jstr k), some (.jstr r) => some { key := k, reference := r }
  | _, _ => none

def readCitationList : Jv → Option (List Citation)
  | .jarrNil => some []
  | .jarrCons v tl =>
    match readCitation v, readCitationList tl with
    | some c, some cs => some (c :: cs)
    | _, _ => none
  | _ => none

def readReferences (v : Jv) : Option References :=
  match getField v "citations" with
  | some arr =>
    match readCitationList arr with
    | some cs => some { citations := cs }
    | none => none
  | none => none

structure OverviewState where
  messages : List ChatMessage
  isStreaming : Bool := false
deriving DecidableEq, Repr

/-- The `catch` branch of `handleSubmit`: overwrite the last message's
content with the fixed failure string (the message list always ends with
the just-pushed user message, so it is never empty there). -/
def replaceLastContent (ms : List ChatMessage) (c : String) : List ChatMessage :=
  match ms with
  | [] => []
  | _ =>
    ms.dropLast ++
      [{ (ms.getLastD { role := .assistant, content := "" }) with content := c }]

/-- `handleSubmit`: push the user message, mark streaming, run the stream
loop; on success append one assistant message carrying the accumulated
content and the last `references` event (when content is non-empty); on a
dropped connection replace the last message with the fixed failure string.
`finally`-equivalent: `isStreaming` ends `false` in every case. -/
def handleSubmit (st : OverviewState) (userContent : String)
    (outcome : StreamOutcome) : OverviewState :=
  let ms1 := st.messages ++
    [{ role := .user, content := userContent, references := none, id := none }]
  let s := overviewStreamResult outcome.chunks
  if outcome.dropped then
    { messages :=
        replaceLastContent ms1 "An error occurred while processing your request.",
      isStreaming := false }
  else
    { messages :=
        if s.acc ≠ "" then
          ms1 ++ [{ role := .assistant, content := s.acc,
                    references := s.refs.bind readReferences, id := none }]
        else ms1,
      isStreaming := false }

/-! ## Chat-history rehydration (`loadChatHistory` in `CommentStyleChat.tsx`)

`getChatHistory(paperId, 'comment')` returns rows `{role, message,
thread_id?, references?}`.  The component `reduce`s them into a JS object
keyed by `thread_id` (insertion-ordered for these non-numeric ids),
skipping rows without a `thread_id`, then sets each thread's
`selectedText` from its first user-role message. -/

structure HistoryMsg where
  role : Role
  message : String
  thread_id : Option String := none
  references : Option References := none
deriving DecidableEq, Repr

def historyToChatMessage (m : HistoryMsg) : ChatMessage :=
  { role := m.role, content := m.message, references := m.references, id := none }

/-- One step of the `reduce`: group the row into the accumulator object
(modelled as an insertion-ordered association list). -/
def groupStep (acc : List (String × CommentThread)) (m : HistoryMsg) :
    List (String × CommentThread) :=
  match m.thread_id with
  | none => acc
  | some tid =>
    if acc.any (fun p => p.1 == tid) then
      acc.map (fun p =>
        if p.1 == tid then
          (p.1, { p.2 with messages := p.2.messages ++ [historyToChatMessage m] })
        else p)
    else
      acc ++ [(tid,
        { id := tid, highlightId := none, selectedText := "",
          messages := [historyToChatMessage m], isExpanded := false,
          conversationId := none })]

/-- The `forEach` that follows the `reduce`: set `selectedText` from the
first user message, leaving it `''` when the thread has none. -/
def setSelectedTextFromFirstUser (t : CommentThread) : CommentThread :=
  match t.messages.find? (fun m => m.role == Role.user) with
  | some firstUserMessage => { t with selectedText := firstUserMessage.content }
  | none => t

def loadChatHistory (history : List HistoryMsg) : List CommentThread :=
  ((history.foldl groupStep []).map (fun p => p.2)).map setSelectedTextFromFirstUser

/-! ## localStorage round trip (`comment-threads-<id>`)

The save effect runs `JSON.stringify(commentThreads)` (only when the
collection is non-empty) and the load effect runs
`JSON.parse(savedThreads)` and uses the parsed value directly as the
thread collection.  `encode*` is the structural value `JSON.stringify`
serializes (fields holding `undefined` are omitted, exactly as
`JSON.stringify` drops them); `decode*` is the structural reading the
duck-typed load performs on the parsed value.  The JS engine's guarantee
that `JSON.parse` inverts `JSON.stringify` on such plain data is the
platform's text layer and is not re-proved here; the round trip is settled
at the level of the serialized value. -/

def encodeCitation (c : Citation) : Jv :=
  jobjOfFields [("key", .jstr c.key), ("reference", .jstr c.reference)]

def encodeReferences (r : References) : Jv :=
  jobjOfFields [("citations", jarrOfList (r.citations.map encodeCitation))]

def roleToString : Role → String
  | .user => "user"
  | .assistant => "assistant"

def optField (k : String) : Option Jv → List (String × Jv)
  | none => []
  | some v => [(k, v)]

def encodeMessage (m : ChatMessage) : Jv :=
  jobjOfFields ([("role", .jstr (roleToString m.role)), ("content", .jstr m.content)]
    ++ optField "references" (m.references.map encodeReferences)
    ++ optField "id" (m.id.map Jv.jstr))

def encodeThread (t : CommentThread) : Jv :=
  jobjOfFields ([("id", .jstr t.id)]
    ++ optField "highlightId" (t.highlightId.map Jv.jstr)
    ++ [("selectedText", .jstr t.selectedText),
        ("messages", jarrOfList (t.messages.map encodeMessage)),
        ("isExpanded", .jbool t.isExpanded)]
    ++ optField "conversationId" (t.conversationId.map Jv.jstr))

def encodeThreads (ts : List CommentThread) : Jv :=
  jarrOfList (ts.map encodeThread)

def decodeString : Option Jv → Option String
  | some (.jstr s) => some s
  | _ => none

/-- An absent optional field reads back as `undefined` = `none`. -/
def decodeOptString : Option Jv → Option (Option String)
  | none => some none
  | some (.jstr s) => some (some s)
  | some _ => none

def decodeRole : Option Jv → Option Role
  | some (.jstr "user") => some Role.user
  | some (.jstr "assistant") => some Role.assistant
  | _ => none

def decodeReferencesField : Option Jv → Option (Option References)
  | none => some none
  | some v =>
    match readReferences v with
    | some r => some (some r)
    | none => none

def decodeMessage (v : Jv) : Option ChatMessage :=
  match decodeRole (getField v "role"), decodeString (getField v "content"),
      decodeReferencesField (getField v "references"),
      decodeOptString (getField v "id") with
  | some role, some content, some refs, some mid =>
    some { role := role, content := content, references := refs, id := mid }
  | _, _, _, _ => none

def decodeMessageList : Jv → Option (List ChatMessage)
  | .jarrNil => some []
  | .jarrCons v tl =>
    match decodeMessage v, decodeMessageList tl with
    | some m, some ms => some (m :: ms)
    | _, _ => none
  | _ => none

def decodeBool : Option Jv → Option Bool
  | some (.jbool b) => some b
  | _ => none

def decodeThread (v : Jv) : Option CommentThread :=
  match decodeString (getField v "id"),
      decodeOptString (getField v "highlightId"),
      decodeString (getField v "selectedText"),
      getField v "messages", decodeBool (getField v "isExpanded"),
      decodeOptString (getField v "conversationId") with
  | some tid, some hid, some sel, some mvs, some exp, some cid =>
    match decodeMessageList mvs with
    | some ms =>
      some { id := tid, highlightId := hid, selectedText := sel,
             messages := ms, isExpanded := exp, conversationId := cid }
    | none => none
  | _, _, _, _, _, _ => none

def decodeThreads : Jv → Option (List CommentThread)
  | .jarrNil => some []
  | .jarrCons v tl =>
    match decodeThread v, decodeThreads tl with
    | some t, some ts => some (t :: ts)
    | _, _ => none
  | _ => none

/-! ## Highlight store (C9)

The `useHighlights` / `useAnnotations` hook bodies are not part of this
source excerpt — only their call sites in `PaperView` and
`InlineAnnotationMenu` are. -/

structure Highlight where
  id : String
  text : String
deriving DecidableEq, Repr

structure Annotation where
  id : String
  highlightId : Option String := none
  content : String
deriving DecidableEq, Repr

structure AnnotationStore where
  highlights : List Highlight
  annotations : List Annotation
  threads : List CommentThread
deriving DecidableEq, Repr

/-- Modelled from the spec: the implementation of `useHighlights` (and with
it `removeHighlight`) is missing from this excerpt; per §4.2,
`removeHighlight(highlight)` removes the highlight from the in-memory
collection (the remote delete is fire-and-forget) and cascades only by
clearing the `highlightId` back-references on any Annotation or
CommentThread pointing at it — it does not delete those dependents. -/
def removeHighlight (st : AnnotationStore) (hid : String) : AnnotationStore :=
  { highlights := st.highlights.filter (fun h => !(h.id == hid)),
    annotations := st.annotations.map (fun a =>
      if a.highlightId == some hid then { a with highlightId := none } else a),
    threads := st.threads.map (fun t =>
      if t.highlightId == some hid then { t with highlightId := none } else t) }

/-! ## Concrete scenario inputs for the claims -/

/-- The projection of a thread that `createThreadAndSend`'s dedup scan and
the duplicate count can observe: its id and its `selectedText` (message
delivery and conversation bootstrap never change either). -/
def threadKey (t : CommentThread) : String × String := (t.id, t.selectedText)

/-- The C2 stream payload, delivered here as a single chunk:
`{"type":"content","content":"Hel"}END_OF_STREAM{"type":"content","content":"lo"}END_OF_STREAM{"type":"references","content":{"citations":[{"key":"1","reference":"foo"}]}}END_OF_STREAM`. -/
def payloadC2 : String :=
  "\x7b\"type\":\"content\",\"content\":\"Hel\"\x7dEND_OF_STREAM\x7b\"type\":\"content\",\"content\":\"lo\"\x7dEND_OF_STREAM\x7b\"type\":\"references\",\"content\":\x7b\"citations\":[\x7b\"key\":\"1\",\"reference\":\"foo\"\x7d]\x7d\x7dEND_OF_STREAM"

/-- A payload whose second event is malformed (not JSON) and whose third is
`error`-typed, followed by one more `content` event. -/
def payloadC3 : String :=
  "\x7b\"type\":\"content\",\"content\":\"A\"\x7dEND_OF_STREAMoops not jsonEND_OF_STREAM\x7b\"type\":\"error\",\"content\":\"boom\"\x7dEND_OF_STREAM\x7b\"type\":\"content\",\"content\":\"B\"\x7dEND_OF_STREAM"

/-- A panel holding one idle thread `t1`, used as the scenario start state. -/
def stOneThread : ChatPanelState :=
  { threads := [{ id := "t1", highlightId := none, selectedText := "sel",
                  messages := [], isExpanded := true, conversationId := none }],
    activeThreadId := some "t1", threadStreaming := none }

/-! # Supporting lemmas -/

theorem splitOnFuel_congr (D : Chars) :
    ∀ (f1 : Nat) (l : Chars) (f2 : Nat), l.length < f1 → l.length < f2 →
      splitOnFuel D f1 l = splitOnFuel D f2 l := by
  intro f1
  induction f1 with
  | zero => intro l f2 h1 _; omega
  | succ g1 ih =>
    intro l f2 h1 h2
    cases f2 with
    | zero => omega
    | succ g2 =>
      cases l with
      | nil => rfl
      | cons c rest =>
        rw [splitOnFuel, splitOnFuel]
        have hr : rest.length < g1 := by simp at h1; omega
        have hr2 : rest.length < g2 := by simp at h2; omega
        have hd : (rest.drop (D.length - 1)).length < g1 := by
          simp only [List.length_drop]; omega
        have hd2 : (rest.drop (D.length - 1)).length < g2 := by
          simp only [List.length_drop]; omega
        rw [ih (rest.drop (D.length - 1)) g2 hd hd2, ih rest g2 hr hr2]

theorem splitOnD_nil (D : Chars) : splitOnD D [] = [[]] := rfl

theorem splitOnD_cons (D : Chars) (c : Char) (rest : Chars) :
    splitOnD D (c :: rest)
      = if startsWith D (c :: rest) then
          [] :: splitOnD D (rest.drop (D.length - 1))
        else
          match splitOnD D rest with
          | [] => [[c]]
          | p :: ps => (c :: p) :: ps := by
  show splitOnFuel D ((c :: rest).length + 1) (c :: rest) = _
  rw [List.length_cons, splitOnFuel]
  rw [splitOnFuel_congr D (rest.length + 1) (rest.drop (D.length - 1))
    ((rest.drop (D.length - 1)).length + 1)
    (by simp only [List.length_drop]; omega) (by omega)]
  rfl

theorem startsWith_nil_iff (p : Chars) : startsWith p [] = true ↔ p = [] := by
  cases p <;> simp [startsWith]

theorem startsWith_iff_exists (p l : Chars) :
    startsWith p l = true ↔ ∃ post, l = p ++ post := by
  induction p generalizing l with
  | nil => simp [startsWith]
  | cons x xs ih =>
    cases l with
    | nil =>
      simp [startsWith]
    | cons c cs =>
      simp only [startsWith, Bool.and_eq_true, beq_iff_eq, ih, List.cons_append,
        List.cons.injEq]
      constructor
      · rintro ⟨rfl, post, rfl⟩; exact ⟨post, rfl, rfl⟩
      · rintro ⟨post, rfl, rfl⟩; exact ⟨rfl, post, rfl⟩

theorem length_le_of_startsWith {p l : Chars} (h : startsWith p l = true) :
    p.length ≤ l.length := by
  obtain ⟨post, rfl⟩ := (startsWith_iff_exists p l).mp h
  simp

theorem startsWith_append_of_le {p l : Chars} (t : Chars)
    (h : p.length ≤ l.length) : startsWith p (l ++ t) = startsWith p l := by
  induction p generalizing l with
  | nil => simp [startsWith]
  | cons x xs ih =>
    cases l with
    | nil => simp at h
    | cons c cs =>
      show (x == c && startsWith xs (cs ++ t)) = (x == c && startsWith xs cs)
      rw [ih (by simpa using h)]

theorem occursIn_iff_exists (needle hay : Chars) :
    occursIn needle hay = true ↔ ∃ pre post, hay = pre ++ needle ++ post := by
  induction hay with
  | nil =>
    simp only [occursIn, startsWith_nil_iff]
    constructor
    · rintro rfl; exact ⟨[], [], rfl⟩
    · rintro ⟨pre, post, h⟩
      rcases List.append_eq_nil.mp h.symm with ⟨h1, h2⟩
      exact (List.append_eq_nil.mp h1).2
  | cons c rest ih =>
    simp only [occursIn, Bool.or_eq_true, startsWith_iff_exists, ih]
    constructor
    · rintro (⟨post, h⟩ | ⟨pre, post, h⟩)
      · exact ⟨[], post, by simpa using h⟩
      · exact ⟨c :: pre, post, by simp [h]⟩
    · rintro ⟨pre, post, h⟩
      cases pre with
      | nil => exact Or.inl ⟨post, by simpa using h⟩
      | cons p ps =>
        right
        simp only [List.cons_append, List.cons.injEq] at h
        exact ⟨ps, post, h.2⟩

theorem splitOnD_ne_nil (D l : Chars) : splitOnD D l ≠ [] := by
  cases l with
  | nil => rw [splitOnD_nil]; simp
  | cons c rest =>
    rw [splitOnD_cons]
    split
    · simp
    · split <;> simp

theorem getLastD_congr {α : Type} {l : List α} (h : l ≠ []) (a b : α) :
    l.getLastD a = l.getLastD b := by
  cases l with
  | nil => exact absurd rfl h
  | cons x xs => rw [List.getLastD_cons, List.getLastD_cons]

theorem dropLast_cons_ne_nil {α : Type} (a : α) {l : List α} (h : l ≠ []) :
    (a :: l).dropLast = a :: l.dropLast := by
  cases l with
  | nil => exact absurd rfl h
  | cons x xs => rfl

theorem splitOnD_short {D l : Chars} (h : l.length < D.length) :
    splitOnD D l = [l] := by
  induction l with
  | nil => exact splitOnD_nil D
  | cons c rest ih =>
    rw [splitOnD_cons]
    have hsw : startsWith D (c :: rest) = false := by
      rcases hcontra : startsWith D (c :: rest) with _ | _
      · rfl
      · exact absurd (length_le_of_startsWith hcontra) (by omega)
    rw [hsw]
    simp only [Bool.false_eq_true, if_false]
    rw [ih (by simp at h ⊢; omega)]

theorem splitOnD_singleton {D l p : Chars} (h : splitOnD D l = [p]) : p = l := by
  induction l generalizing p with
  | nil =>
    rw [splitOnD_nil] at h
    injection h with h1 _
    exact h1.symm
  | cons c rest ih =>
    rw [splitOnD_cons] at h
    split at h
    · rcases hs : splitOnD D (rest.drop (D.length - 1)) with _ | ⟨q, qs⟩
      · exact absurd hs (splitOnD_ne_nil _ _)
      · rw [hs] at h; simp at h
    · rcases hs : splitOnD D rest with _ | ⟨q, qs⟩
      · exact absurd hs (splitOnD_ne_nil _ _)
      · rw [hs] at h
        simp only [List.cons.injEq] at h
        obtain ⟨h1, h2⟩ := h
        subst h2
        have hq : q = rest := ih hs
        rw [← h1, hq]

/-- Boundary lemma for the left-to-right splitter: splitting `s ++ t` yields
the complete parts of `s` followed by the split of `s`'s remainder glued to
`t`.  This is exactly why the stream loop may split each chunk as it arrives,
keeping only the last part as its buffer. -/
theorem splitOnD_append (D s t : Chars) :
    splitOnD D (s ++ t) = initParts D s ++ splitOnD D (lastPart D s ++ t) := by
  cases s with
  | nil =>
    simp [initParts, lastPart, splitOnD_nil]
  | cons c rest =>
    by_cases hsw : startsWith D (c :: rest) = true
    · have hle : D.length ≤ rest.length + 1 := by
        simpa using length_le_of_startsWith hsw
      have hsw2 : startsWith D (c :: (rest ++ t)) = true := by
        have h2 := startsWith_append_of_le (p := D) (l := c :: rest) t (by simpa using hle)
        rw [List.cons_append] at h2
        rw [h2]; exact hsw
      have hdrop : (rest ++ t).drop (D.length - 1) = rest.drop (D.length - 1) ++ t := by
        rw [List.drop_append_of_le_length (by omega)]
      have hne : splitOnD D (rest.drop (D.length - 1)) ≠ [] := splitOnD_ne_nil _ _
      have ih := splitOnD_append D (rest.drop (D.length - 1)) t
      have hs : splitOnD D (c :: rest)
          = [] :: splitOnD D (rest.drop (D.length - 1)) := by
        rw [splitOnD_cons, if_pos hsw]
      have h1 : initParts D (c :: rest)
          = [] :: initParts D (rest.drop (D.length - 1)) := by
        simp only [initParts, hs]
        all_goals exact dropLast_cons_ne_nil _ hne
      have h2 : lastPart D (c :: rest) = lastPart D (rest.drop (D.length - 1)) := by
        simp only [lastPart, hs, List.getLastD_cons]
      calc splitOnD D ((c :: rest) ++ t)
          = splitOnD D (c :: (rest ++ t)) := by rw [List.cons_append]
        _ = [] :: splitOnD D ((rest ++ t).drop (D.length - 1)) := by
            rw [splitOnD_cons, if_pos hsw2]
        _ = [] :: (initParts D (rest.drop (D.length - 1)) ++
              splitOnD D (lastPart D (rest.drop (D.length - 1)) ++ t)) := by
            rw [hdrop, ih]
        _ = initParts D (c :: rest) ++ splitOnD D (lastPart D (c :: rest) ++ t) := by
            rw [h1, h2, List.cons_append]
    · rw [Bool.not_eq_true] at hsw
      by_cases hlen : D.length ≤ rest.length + 1
      · have hsw2 : startsWith D (c :: (rest ++ t)) = false := by
          have h2 := startsWith_append_of_le (p := D) (l := c :: rest) t (by simpa using hlen)
          rw [List.cons_append] at h2
          rw [h2, hsw]
        rcases hq : splitOnD D rest with _ | ⟨q, qs⟩
        · exact absurd hq (splitOnD_ne_nil _ _)
        rcases qs with _ | ⟨q1, qs'⟩
        · -- no delimiter inside `rest`: the whole of `s` is its own remainder
          have hqr : q = rest := splitOnD_singleton hq
          have hs : splitOnD D (c :: rest) = [c :: rest] := by
            rw [splitOnD_cons, if_neg (by simp [hsw]), hq, hqr]
          have h1 : initParts D (c :: rest) = [] := by
            simp [initParts, hs]
          have h2 : lastPart D (c :: rest) = c :: rest := by
            simp [lastPart, hs]
          rw [h1, h2]
          simp
        · have hne : (q1 :: qs' : List Chars) ≠ [] := by simp
          have ih := splitOnD_append D rest t
          have hinit : initParts D rest = q :: (q1 :: qs').dropLast := by
            simp only [initParts, hq]
            all_goals exact dropLast_cons_ne_nil _ hne
          have hlast : lastPart D rest = (q1 :: qs').getLastD [] := by
            simp only [lastPart, hq, List.getLastD_cons]
          have hs : splitOnD D (c :: rest) = (c :: q) :: q1 :: qs' := by
            rw [splitOnD_cons, if_neg (by simp [hsw]), hq]
          have h1 : initParts D (c :: rest) = (c :: q) :: (q1 :: qs').dropLast := by
            simp only [initParts, hs]
            all_goals exact dropLast_cons_ne_nil _ hne
          have h2 : lastPart D (c :: rest) = (q1 :: qs').getLastD [] := by
            simp only [lastPart, hs, List.getLastD_cons]
          calc splitOnD D ((c :: rest) ++ t)
              = splitOnD D (c :: (rest ++ t)) := by rw [List.cons_append]
            _ = (c :: q) :: ((q1 :: qs').dropLast ++
                  splitOnD D ((q1 :: qs').getLastD [] ++ t)) := by
                rw [splitOnD_cons, if_neg (by simp [hsw2])]
                rw [ih, hinit, hlast]
                rfl
            _ = initParts D (c :: rest) ++
                  splitOnD D (lastPart D (c :: rest) ++ t) := by
                rw [h1, h2, List.cons_append]
      · have hshort : splitOnD D (c :: rest) = [c :: rest] :=
          splitOnD_short (by simp; omega)
        have h1 : initParts D (c :: rest) = [] := by simp [initParts, hshort]
        have h2 : lastPart D (c :: rest) = c :: rest := by simp [lastPart, hshort]
        rw [h1, h2]
        simp
termination_by s.length
decreasing_by
  · simp only [List.length_drop, List.length_cons]; omega
  · simp

theorem dropLast_append_getLastD {α : Type} {l : List α} (h : l ≠ []) (d : α) :
    l.dropLast ++ [l.getLastD d] = l := by
  induction l generalizing d with
  | nil => exact absurd rfl h
  | cons x xs ih =>
    cases xs with
    | nil => rfl
    | cons y ys =>
      rw [dropLast_cons_ne_nil x (by simp), List.getLastD_cons,
        List.cons_append, ih (by simp)]

/-- The remainder kept in the buffer contains no delimiter occurrence:
splitting it again yields it back whole. -/
theorem lastPart_no_delim (D l : Chars) :
    splitOnD D (lastPart D l) = [lastPart D l] := by
  have h := splitOnD_append D l []
  rw [List.append_nil, List.append_nil] at h
  have hdecomp : splitOnD D l = initParts D l ++ [lastPart D l] := by
    rw [initParts, lastPart]
    exact (dropLast_append_getLastD (splitOnD_ne_nil D l) []).symm
  exact (List.append_cancel_left (hdecomp ▸ h)).symm

theorem dropLast_append_ne_nil {α : Type} {ys : List α} (xs : List α) (h : ys ≠ []) :
    (xs ++ ys).dropLast = xs ++ ys.dropLast := by
  induction xs with
  | nil => rfl
  | cons x xs' ih =>
    rw [List.cons_append, dropLast_cons_ne_nil x (by simp [h]), ih, List.cons_append]

theorem getLastD_append_ne_nil {α : Type} {ys : List α} (xs : List α) (h : ys ≠ [])
    (d : α) : (xs ++ ys).getLastD d = ys.getLastD d := by
  induction xs generalizing d with
  | nil => rfl
  | cons x xs' ih =>
    rw [List.cons_append, List.getLastD_cons, ih x, getLastD_congr h x d]

/-- Invariant of the buffering loop: starting from a delimiter-free buffer,
the loop emits exactly the complete parts of `buffer ++ (all chunks)`, and
finishes holding the remainder. -/
theorem streamLoop_spec (D : Chars) (chunks : List Chars) (buf : Chars)
    (hbuf : splitOnD D buf = [buf]) :
    streamLoop D chunks buf
      = (initParts D (buf ++ chunks.flatten), lastPart D (buf ++ chunks.flatten)) := by
  induction chunks generalizing buf with
  | nil =>
    simp [streamLoop, initParts, lastPart, hbuf]
  | cons c cs ih =>
    have hlp : splitOnD D (lastPart D (buf ++ c)) = [lastPart D (buf ++ c)] :=
      lastPart_no_delim D (buf ++ c)
    have htail := ih (lastPart D (buf ++ c)) hlp
    have hsplit := splitOnD_append D (buf ++ c) cs.flatten
    have hne2 : splitOnD D (lastPart D (buf ++ c) ++ cs.flatten) ≠ [] :=
      splitOnD_ne_nil _ _
    have hwhole : buf ++ (c :: cs).flatten = (buf ++ c) ++ cs.flatten := by
      rw [List.flatten_cons, List.append_assoc]
    rw [streamLoop]
    simp only [hwhole]
    have hgl : (splitOnD D (buf ++ c)).getLastD [] = lastPart D (buf ++ c) := rfl
    rw [hgl, htail]
    have hfst : initParts D ((buf ++ c) ++ cs.flatten)
        = (splitOnD D (buf ++ c)).dropLast
          ++ initParts D (lastPart D (buf ++ c) ++ cs.flatten) := by
      rw [initParts, hsplit, dropLast_append_ne_nil _ hne2, initParts, initParts]
    have hsnd : lastPart D ((buf ++ c) ++ cs.flatten)
        = lastPart D (lastPart D (buf ++ c) ++ cs.flatten) := by
      rw [lastPart, hsplit, getLastD_append_ne_nil _ hne2]
      rfl
    rw [hfst, hsnd]

/-- C8 core: for every partition of the payload into read chunks, the
buffering loop yields the same sequence of parsed delimiter-terminated
events as splitting the whole concatenated payload once. -/
theorem streamLoop_eq_referenceEvents (D : Chars) (chunks : List Chars) :
    (streamLoop D chunks []).1 = referenceEvents D chunks.flatten := by
  rw [streamLoop_spec D chunks [] rfl, List.nil_append, referenceEvents]

theorem performSearch_searchResults (pages : List Chars) (q : Chars) :
    (performSearch pages q).searchResults
      = (List.range pages.length).filter
          (fun i => pageMatches q (pages.getD i [])) := by
  rw [performSearch]
  rcases h : (List.range pages.length).filter
      (fun i => pageMatches q (pages.getD i [])) with _ | ⟨r, rs⟩ <;> simp [h]

theorem performSearch_sorted (pages : List Chars) (q : Chars) :
    List.Pairwise (· < ·) (performSearch pages q).searchResults := by
  rw [performSearch_searchResults]
  exact (List.pairwise_lt_range _).filter _

theorem performSearch_mem (pages : List Chars) (q : Chars) (i : Nat) :
    i ∈ (performSearch pages q).searchResults ↔
      i < pages.length ∧
        ∃ pre post, lowerChars (pages.getD i []) = pre ++ lowerChars q ++ post := by
  rw [performSearch_searchResults, List.mem_filter, List.mem_range]
  simp only [pageMatches, occursIn_iff_exists]

/-! # Claims -/

/-- C4: at most one thread streams at a time — every send request issued
through `handleSendMessage` while any thread's stream is in flight
(`threadStreaming` non-null) is a silently dropped no-op: the state is
returned unchanged, so no user message is added to any thread and no new
stream is started. -/
theorem claim_C4 (st : ChatPanelState) (s threadId message selectedText : String)
    (activeHighlightId : Option String) (newId freshConvId : String)
    (outcome : StreamOutcome) (uidU uidA : String)
    (h : st.threadStreaming = some s) :
    handleSendMessage st threadId message selectedText activeHighlightId
      newId freshConvId outcome uidU uidA = st := by
  rw [handleSendMessage, if_pos (Or.inr (by simp [h]))]

/-- Witness for C4 at a concrete in-flight state. -/
theorem claim_C4_witness :
    handleSendMessage
      { threads := [{ id := "t1", selectedText := "abc", isExpanded := true }],
        activeThreadId := some "t1", threadStreaming := some "t1" }
      "t1" "hello" "" none "id2" "conv1" { chunks := [], dropped := false }
      "u1" "a1"
      = { threads := [{ id := "t1", selectedText := "abc", isExpanded := true }],
          activeThreadId := some "t1", threadStreaming := some "t1" } :=
  claim_C4 _ "t1" "t1" "hello" "" none "id2" "conv1"
    { chunks := [], dropped := false } "u1" "a1" rfl

theorem appendToThread_of_absent {ts : List CommentThread} {threadId : String}
    (h : ∀ t ∈ ts, t.id ≠ threadId) (m : ChatMessage) :
    appendToThread ts threadId m = ts := by
  induction ts with
  | nil => rfl
  | cons t rest ih =>
    rw [appendToThread, List.map_cons]
    rw [if_neg (by simpa using h t (by simp))]
    have := ih (fun t' ht' => h t' (by simp [ht']))
    rw [appendToThread] at this
    rw [this]

/-- C5: deleting thread A while its stream is in flight makes the stream's
completion a no-op — the completion handler's functional update
(`prev.map(t => t.id === threadId ? ... : t)`, embedded as
`appendToThread`) appends no message to any thread and leaves the deleted
collection unchanged (and, being a total function, throws nothing). -/
theorem claim_C5 (st : ChatPanelState) (threadId : String) (m : ChatMessage) :
    appendToThread (deleteThread st threadId).threads threadId m
      = (deleteThread st threadId).threads := by
  apply appendToThread_of_absent
  intro t ht
  rw [deleteThread] at ht
  simp only [List.mem_filter, Bool.not_eq_eq_eq_not, Bool.not_true,
    beq_eq_false_iff_ne] at ht
  exact ht.2

/-- C9: removing a highlight never deletes a dependent annotation or
comment thread — ids are all preserved; every dependent that pointed at
the removed highlight persists with its `highlightId` back-reference
cleared; entities not pointing at it are untouched; and afterwards no
annotation or thread references the removed highlight.  (Spec-modelled:
the `useHighlights` hook body is not part of this excerpt.) -/
theorem claim_C9 (st : AnnotationStore) (hid : String) :
    ((removeHighlight st hid).annotations.map (fun a => a.id)
        = st.annotations.map (fun a => a.id))
    ∧ ((removeHighlight st hid).threads.map (fun t => t.id)
        = st.threads.map (fun t => t.id))
    ∧ (∀ a ∈ st.annotations, a.highlightId = some hid →
        { a with highlightId := none } ∈ (removeHighlight st hid).annotations)
    ∧ (∀ a ∈ st.annotations, a.highlightId ≠ some hid →
        a ∈ (removeHighlight st hid).annotations)
    ∧ (∀ t ∈ st.threads, t.highlightId = some hid →
        { t with highlightId := none } ∈ (removeHighlight st hid).threads)
    ∧ (∀ t ∈ st.threads, t.highlightId ≠ some hid →
        t ∈ (removeHighlight st hid).threads)
    ∧ (∀ a ∈ (removeHighlight st hid).annotations, a.highlightId ≠ some hid)
    ∧ (∀ t ∈ (removeHighlight st hid).threads, t.highlightId ≠ some hid) := by
  refine ⟨?_, ?_, ?_, ?_, ?_, ?_, ?_, ?_⟩
  · rw [removeHighlight]
    simp only [List.map_map]
    apply List.map_congr_left
    intro a _
    by_cases h : a.highlightId == some hid <;> simp [h] <;> split <;> rfl
  · rw [removeHighlight]
    simp only [List.map_map]
    apply List.map_congr_left
    intro t _
    by_cases h : t.highlightId == some hid <;> simp [h] <;> split <;> rfl
  · intro a ha h
    rw [removeHighlight]
    exact List.mem_map.mpr ⟨a, ha, by simp [h]⟩
  · intro a ha h
    rw [removeHighlight]
    exact List.mem_map.mpr ⟨a, ha, by simp [h]⟩
  · intro t ht h
    rw [removeHighlight]
    exact List.mem_map.mpr ⟨t, ht, by simp [h]⟩
  · intro t ht h
    rw [removeHighlight]
    exact List.mem_map.mpr ⟨t, ht, by simp [h]⟩
  · intro a ha
    rw [removeHighlight] at ha
    obtain ⟨a', _, rfl⟩ := List.mem_map.mp ha
    by_cases h : a'.highlightId == some hid <;> simp [h]
    simpa using h
  · intro t ht
    rw [removeHighlight] at ht
    obtain ⟨t', _, rfl⟩ := List.mem_map.mp ht
    by_cases h : t'.highlightId == some hid <;> simp [h]
    simpa using h

/-- Witness for C9 at a concrete store: one highlight, one annotation and
one thread pointing at it, one annotation pointing elsewhere. -/
theorem claim_C9_witness :
    ({ id := "a1", highlightId := none, content := "note" } : Annotation)
      ∈ (removeHighlight
          { highlights := [{ id := "h1", text := "t" }],
            annotations := [{ id := "a1", highlightId := some "h1", content := "note" },
                            { id := "a2", highlightId := some "h9", content := "other" }],
            threads := [{ id := "t1", highlightId := some "h1",
                          selectedText := "sel", isExpanded := false }] }
          "h1").annotations ∧
    ({ id := "a2", highlightId := some "h9", content := "other" } : Annotation)
      ∈ (removeHighlight
          { highlights := [{ id := "h1", text := "t" }],
            annotations := [{ id := "a1", highlightId := some "h1", content := "note" },
                            { id := "a2", highlightId := some "h9", content := "other" }],
            threads := [{ id := "t1", highlightId := some "h1",
                          selectedText := "sel", isExpanded := false }] }
          "h1").annotations := by
  constructor
  · exact (claim_C9 _ "h1").2.2.1
      { id := "a1", highlightId := some "h1", content := "note" }
      (by simp) rfl
  · exact (claim_C9 _ "h1").2.2.2.1
      { id := "a2", highlightId := some "h9", content := "other" }
      (by simp) (by simp)

/-- C7: `performSearch` is a case-insensitive substring match over every
page's extracted text: a page index is in the results exactly when its
lowercased text contains the lowercased query; the results are in
ascending page order; when non-empty, the current match is the first
result — the lowest matching page index, also the scroll target; when
empty, the outcome is the explicit not-found state (and the function is
total, so no exception is possible). -/
theorem claim_C7 (pages : List Chars) (q : Chars) :
    (∀ i, i ∈ (performSearch pages q).searchResults ↔
        i < pages.length ∧
          ∃ pre post, lowerChars (pages.getD i []) = pre ++ lowerChars q ++ post)
    ∧ List.Pairwise (· < ·) (performSearch pages q).searchResults
    ∧ ((performSearch pages q).searchResults ≠ [] →
        (performSearch pages q).currentMatch = 0
        ∧ (performSearch pages q).notFound = false
        ∧ (performSearch pages q).scrolledToPage
            = (performSearch pages q).searchResults.head?
        ∧ ∀ j ∈ (performSearch pages q).searchResults,
            (performSearch pages q).searchResults.headD 0 ≤ j)
    ∧ ((performSearch pages q).searchResults = [] →
        (performSearch pages q).currentMatch = -1
        ∧ (performSearch pages q).notFound = true
        ∧ (performSearch pages q).scrolledToPage = none) := by
  refine ⟨performSearch_mem pages q, performSearch_sorted pages q, ?_, ?_⟩
  · intro hne
    rcases hfil : (List.range pages.length).filter
        (fun i => pageMatches q (pages.getD i [])) with _ | ⟨r, rs⟩
    · rw [performSearch_searchResults] at hne
      exact absurd hfil hne
    · have hps : performSearch pages q
          = { searchResults := r :: rs, currentMatch := 0,
              notFound := false, scrolledToPage := some r } := by
        rw [performSearch]
        simp only [hfil]
      have hsorted := performSearch_sorted pages q
      rw [hps] at hsorted ⊢
      refine ⟨rfl, rfl, rfl, ?_⟩
      intro j hj
      rcases List.mem_cons.mp hj with rfl | hj'
      · simp
      · simpa using le_of_lt ((List.pairwise_cons.mp hsorted).1 j hj')
  · intro hnil
    rcases hfil : (List.range pages.length).filter
        (fun i => pageMatches q (pages.getD i [])) with _ | ⟨r, rs⟩
    · have hps : performSearch pages q
          = { searchResults := [], currentMatch := -1,
              notFound := true, scrolledToPage := none } := by
        rw [performSearch]
        simp only [hfil]
      rw [hps]
      exact ⟨rfl, rfl, rfl⟩
    · rw [performSearch_searchResults, hfil] at hnil
      exact absurd hnil (by simp)

/-- Witness for C7: two concrete pages, a query matching only the second. -/
theorem claim_C7_witness :
    (1 ∈ (performSearch ["Hello World".toList, "foo BAR baz".toList]
        "bar".toList).searchResults)
    ∧ (performSearch ["Hello World".toList, "foo BAR baz".toList]
        "bar".toList).currentMatch = 0
    ∧ (performSearch ["Hello World".toList, "foo BAR baz".toList]
        "bar".toList).scrolledToPage
        = (performSearch ["Hello World".toList, "foo BAR baz".toList]
            "bar".toList).searchResults.head?
    ∧ (performSearch ["Hello World".toList, "nothing".toList]
        "bar".toList).notFound = true := by
  have h1 := (claim_C7 ["Hello World".toList, "foo BAR baz".toList]
    "bar".toList).1 1
  have h2 := (claim_C7 ["Hello World".toList, "foo BAR baz".toList]
    "bar".toList).2.2.1 (by decide)
  have h3 := (claim_C7 ["Hello World".toList, "nothing".toList]
    "bar".toList).2.2.2 (by decide)
  exact ⟨h1.mpr ⟨by decide, "foo ".toList, " baz".toList, by decide⟩,
    h2.1, h2.2.2.1, h3.2.1⟩

set_option maxRecDepth 400000 in
/-- C2 counterexample: on the exact specified payload the thread
reconciler (`handleThreadMessage`, the function the claim is about)
appends an assistant message whose content is `"Hello"` but whose
references are `none`: the handler has no branch for `references`-typed
events, so no message in the resulting state carries the citation list the
claim requires. -/
theorem claim_C2_counterexample :
    ((handleThreadMessage stOneThread "t1" "q" "conv1"
        { chunks := [payloadC2.toList], dropped := false } "u1" "a1").threads.map
      (fun t => t.messages.map (fun m => (m.role, m.content, m.references))))
      = [[(Role.user, "q", (none : Option References)),
          (Role.assistant, "Hello", (none : Option References))]]
    ∧ ¬ (∃ t ∈ (handleThreadMessage stOneThread "t1" "q" "conv1"
          { chunks := [payloadC2.toList], dropped := false } "u1" "a1").threads,
         ∃ m ∈ t.messages,
           m.references = some { citations := [{ key := "1", reference := "foo" }] }) := by
  constructor
  · decide
  · decide

set_option maxRecDepth 400000 in
/-- C2 (amended): on the specified payload the thread reconciler appends
exactly one new assistant message with content `"Hello"` and clears the
streaming state, but the message carries no references — the thread panel
ignores `references` events; the overview chat's `handleSubmit` on the
same payload does append the assistant message with the references
`{citations:[{key:"1",reference:"foo"}]}` attached and clears its
streaming flag. -/
theorem claim_C2_corrected :
    (handleThreadMessage stOneThread "t1" "q" "conv1"
        { chunks := [payloadC2.toList], dropped := false } "u1" "a1")
      = { threads :=
            [{ id := "t1", highlightId := none, selectedText := "sel",
               messages :=
                 [{ role := .user, content := "q", references := none,
                    id := some "u1" },
                  { role := .assistant, content := "Hello", references := none,
                    id := some "a1" }],
               isExpanded := true, conversationId := some "conv1" }],
          activeThreadId := some "t1", threadStreaming := none }
    ∧ handleSubmit { messages := [], isStreaming := false } "q"
        { chunks := [payloadC2.toList], dropped := false }
      = { messages :=
            [{ role := .user, content := "q", references := none, id := none },
             { role := .assistant, content := "Hello",
               references := some { citations := [{ key := "1", reference := "foo" }] },
               id := none }],
          isStreaming := false } := by
  constructor
  · decide
  · decide

theorem find?_appendToThread (ts : List CommentThread) (tid : String)
    (m : ChatMessage) :
    (appendToThread ts tid m).find? (fun t => t.id == tid)
      = (ts.find? (fun t => t.id == tid)).map
          (fun t => { t with messages := t.messages ++ [m] }) := by
  induction ts with
  | nil => rfl
  | cons a as ih =>
    rw [appendToThread, List.map_cons]
    by_cases h : a.id == tid
    · rw [if_pos h]
      rw [List.find?_cons_of_pos (p := fun t : CommentThread => t.id == tid)
        (a := ({ a with messages := a.messages ++ [m] } : CommentThread)) _ h]
      rw [List.find?_cons_of_pos (p := fun t : CommentThread => t.id == tid)
        (a := a) _ h]
      rfl
    · rw [if_neg h]
      rw [List.find?_cons_of_neg (p := fun t : CommentThread => t.id == tid)
        (a := a) _ h]
      rw [List.find?_cons_of_neg (p := fun t : CommentThread => t.id == tid)
        (a := a) _ h]
      exact ih

theorem find?_setThreadConversationId (ts : List CommentThread) (tid cid : String) :
    (setThreadConversationId ts tid cid).find? (fun t => t.id == tid)
      = (ts.find? (fun t => t.id == tid)).map
          (fun t => { t with conversationId := some cid }) := by
  induction ts with
  | nil => rfl
  | cons a as ih =>
    rw [setThreadConversationId, List.map_cons]
    by_cases h : a.id == tid
    · rw [if_pos h]
      rw [List.find?_cons_of_pos (p := fun t : CommentThread => t.id == tid)
        (a := ({ a with conversationId := some cid } : CommentThread)) _ h]
      rw [List.find?_cons_of_pos (p := fun t : CommentThread => t.id == tid)
        (a := a) _ h]
      rfl
    · rw [if_neg h]
      rw [List.find?_cons_of_neg (p := fun t : CommentThread => t.id == tid)
        (a := a) _ h]
      rw [List.find?_cons_of_neg (p := fun t : CommentThread => t.id == tid)
        (a := a) _ h]
      exact ih

set_option maxRecDepth 400000 in
/-- C3 counterexample: a stream whose second part is malformed and whose
third is an `error`-typed event.  The claim says the error event
terminates the stream and replaces the thread's last message with the
fixed failure string; in fact the `throw` is caught by the same per-event
`catch` that handles parse errors, so processing continues — the content
events on both sides of the error are concatenated into one ordinary
assistant message `"AB"` and no failure string appears anywhere. -/
theorem claim_C3_counterexample :
    ((handleThreadMessage stOneThread "t1" "q" "conv1"
        { chunks := [payloadC3.toList], dropped := false } "u1" "a1").threads.map
      (fun t => t.messages.map (fun m => (m.role, m.content))))
      = [[(Role.user, "q"), (Role.assistant, "AB")]]
    ∧ ¬ (∃ t ∈ (handleThreadMessage stOneThread "t1" "q" "conv1"
          { chunks := [payloadC3.toList], dropped := false } "u1" "a1").threads,
         ∃ m ∈ t.messages,
           m.content = "Sorry, an error occurred. Please try again later.") := by
  constructor
  · decide
  · decide

/-- C3 (amended): in the thread reconciler, (a) a malformed (non-JSON)
part between delimiters leaves the accumulator unchanged and processing
continues with the next part; (b) an `error`-typed event is *likewise*
swallowed by the same per-event handler — it does not terminate the
stream; (c) only a dropped connection reaches the outer handler, which
*appends* the fixed failure message to the thread (rather than replacing
the last message) and clears the streaming state; no partial message is
left in streaming limbo because the panel never inserts one. -/
theorem claim_C3_corrected :
    (∀ (acc : String) (part : Chars), jsonParse part = none →
        threadProcessPart acc part = acc)
    ∧ (∀ (acc : String) (part : Chars) (ev : Jv), jsonParse part = some ev →
        getField ev "type" = some (.jstr "error") →
        threadProcessPart acc part = acc)
    ∧ (∀ (st : ChatPanelState) (threadId message freshConvId : String)
        (chunks : List Chars) (uidU uidA : String) (thread : CommentThread),
        st.threads.find? (fun t => t.id == threadId) = some thread →
        (handleThreadMessage st threadId message freshConvId
            { chunks := chunks, dropped := true } uidU uidA).threadStreaming = none
        ∧ ((handleThreadMessage st threadId message freshConvId
              { chunks := chunks, dropped := true } uidU uidA).threads.find?
                (fun t => t.id == threadId)).map (fun t => t.messages)
          = some (thread.messages
              ++ [{ role := .user, content := message, references := none,
                    id := some uidU },
                  threadErrorMessage uidA])) := by
  refine ⟨?_, ?_, ?_⟩
  · intro acc part hparse
    rw [threadProcessPart]
    split
    · rfl
    · rw [hparse]
  · intro acc part ev hparse htype
    rw [threadProcessPart]
    split
    · rfl
    · rw [hparse]
      have hct : isTypeTag ev "content" = false := by
        rw [isTypeTag, htype]
        decide
      show (if isTypeTag ev "content" = true then
          acc ++ coerceContent (getField ev "content") else acc) = acc
      rw [hct]
      simp
  · intro st threadId message freshConvId chunks uidU uidA thread hfind
    rw [handleThreadMessage, hfind]
    refine ⟨rfl, ?_⟩
    show ((appendToThread (if thread.conversationId = none
        then setThreadConversationId
          (appendToThread st.threads threadId
            { role := .user, content := message, references := none,
              id := some uidU }) threadId freshConvId
        else appendToThread st.threads threadId
          { role := .user, content := message, references := none,
            id := some uidU })
        threadId (threadErrorMessage uidA)).find?
          (fun t => t.id == threadId)).map (fun t => t.messages) = _
    by_cases hconv : thread.conversationId = none
    · rw [if_pos hconv, find?_appendToThread, find?_setThreadConversationId,
        find?_appendToThread, hfind]
      simp
    · rw [if_neg hconv, find?_appendToThread, find?_appendToThread, hfind]
      simp

set_option maxRecDepth 400000 in
/-- Witness for C3 at concrete inputs: a malformed part, an error-typed
part, and a dropped stream on the concrete one-thread panel. -/
theorem claim_C3_witness :
    threadProcessPart "A" "oops not json".toList = "A"
    ∧ threadProcessPart "A"
        "\x7b\"type\":\"error\",\"content\":\"boom\"\x7d".toList = "A"
    ∧ (handleThreadMessage stOneThread "t1" "q" "conv1"
        { chunks := ["partial".toList], dropped := true } "u1" "a1").threadStreaming
      = none := by
  refine ⟨?_, ?_, ?_⟩
  · exact claim_C3_corrected.1 "A" "oops not json".toList (by decide)
  · exact claim_C3_corrected.2.1 "A"
      "\x7b\"type\":\"error\",\"content\":\"boom\"\x7d".toList
      (.jobjCons "type" (.jstr "error") (.jobjCons "content" (.jstr "boom") .jobjNil))
      (by decide) (by decide)
  · exact (claim_C3_corrected.2.2 stOneThread "t1" "q" "conv1"
      ["partial".toList] "u1" "a1"
      { id := "t1", highlightId := none, selectedText := "sel",
        messages := [], isExpanded := true, conversationId := none }
      (by decide)).1

theorem threadKey_appendToThread (ts : List CommentThread) (tid : String)
    (m : ChatMessage) :
    (appendToThread ts tid m).map threadKey = ts.map threadKey := by
  rw [appendToThread, List.map_map]
  apply List.map_congr_left
  intro t _
  simp only [Function.comp_apply]
  split <;> rfl

theorem threadKey_setThreadConversationId (ts : List CommentThread)
    (tid cid : String) :
    (setThreadConversationId ts tid cid).map threadKey = ts.map threadKey := by
  rw [setThreadConversationId, List.map_map]
  apply List.map_congr_left
  intro t _
  simp only [Function.comp_apply]
  split <;> rfl

/-- Message delivery touches only `messages` and `conversationId`: no
thread's id or `selectedText` changes. -/
theorem threadKey_handleThreadMessage (st : ChatPanelState)
    (threadId message freshConvId : String) (outcome : StreamOutcome)
    (uidU uidA : String) :
    (handleThreadMessage st threadId message freshConvId outcome
        uidU uidA).threads.map threadKey
      = st.threads.map threadKey := by
  rw [handleThreadMessage]
  rcases hf : st.threads.find? (fun t => t.id == threadId) with _ | thread
  · rw [hf]
  · rw [hf]
    dsimp only
    by_cases hdrop : outcome.dropped
    · rw [if_pos hdrop, threadKey_appendToThread]
      by_cases hconv : thread.conversationId = none
      · rw [if_pos hconv, threadKey_setThreadConversationId,
          threadKey_appendToThread]
      · rw [if_neg hconv, threadKey_appendToThread]
    · rw [if_neg hdrop]
      by_cases hacc : threadStreamContent outcome.chunks ≠ ""
      · rw [if_pos hacc, threadKey_appendToThread]
        by_cases hconv : thread.conversationId = none
        · rw [if_pos hconv, threadKey_setThreadConversationId,
            threadKey_appendToThread]
        · rw [if_neg hconv, threadKey_appendToThread]
      · rw [if_neg hacc]
        by_cases hconv : thread.conversationId = none
        · rw [if_pos hconv, threadKey_setThreadConversationId,
            threadKey_appendToThread]
        · rw [if_neg hconv, threadKey_appendToThread]

/-- Dedup branch of `createThreadAndSend`: an existing thread with the same
`selectedText` is only activated; nothing else changes and the message is
discarded. -/
theorem createThreadAndSend_dedup (st : ChatPanelState) (hl : Option String)
    (newId text message freshConvId : String) (outcome : StreamOutcome)
    (uidU uidA : String) (existing : CommentThread)
    (hfind : st.threads.find? (fun th => th.selectedText == text)
      = some existing) :
    createThreadAndSend st hl newId text message freshConvId outcome uidU uidA
      = { st with activeThreadId := some existing.id } := by
  rw [createThreadAndSend, hfind]

/-- Fresh branch of `createThreadAndSend`: whatever the delivery does, the
thread keys afterwards are the old ones plus `(newId, text)` at the end. -/
theorem threadKey_createThreadAndSend_new (st : ChatPanelState)
    (hl : Option String) (newId text message freshConvId : String)
    (outcome : StreamOutcome) (uidU uidA : String)
    (hfind : st.threads.find? (fun th => th.selectedText == text) = none) :
    (createThreadAndSend st hl newId text message freshConvId outcome
        uidU uidA).threads.map threadKey
      = st.threads.map threadKey ++ [(newId, text)] := by
  rw [createThreadAndSend, hfind]
  dsimp only
  by_cases hmsg : message ≠ ""
  · rw [if_pos hmsg]
    by_cases hguard : isBlank message = true ∨ st.threadStreaming ≠ none
    · rw [if_pos hguard]
      rw [List.map_append]
      rfl
    · rw [if_neg hguard, threadKey_handleThreadMessage]
      rw [List.map_append]
      rfl
  · rw [if_neg hmsg]
    rw [List.map_append]
    rfl

theorem find?_selectedText_congr {ts ts' : List CommentThread}
    (h : ts.map threadKey = ts'.map threadKey) (x : String) :
    (ts.find? (fun th => th.selectedText == x)).map threadKey
      = (ts'.find? (fun th => th.selectedText == x)).map threadKey := by
  induction ts generalizing ts' with
  | nil =>
    cases ts' with
    | nil => rfl
    | cons b bs => simp at h
  | cons a as ih =>
    cases ts' with
    | nil => simp at h
    | cons b bs =>
      simp only [List.map_cons, List.cons.injEq] at h
      obtain ⟨hab, hrest⟩ := h
      have hsel : a.selectedText = b.selectedText := congrArg Prod.snd hab
      by_cases hp : a.selectedText == x
      · rw [List.find?_cons_of_pos (p := fun th : CommentThread => th.selectedText == x)
          (a := a) _ hp]
        rw [List.find?_cons_of_pos (p := fun th : CommentThread => th.selectedText == x)
          (a := b) _ (by show (b.selectedText == x) = true; rw [← hsel]; exact hp)]
        show some (threadKey a) = some (threadKey b)
        rw [hab]
      · rw [List.find?_cons_of_neg (p := fun th : CommentThread => th.selectedText == x)
          (a := a) _ hp]
        rw [List.find?_cons_of_neg (p := fun th : CommentThread => th.selectedText == x)
          (a := b) _ (by show ¬(b.selectedText == x) = true; rw [← hsel]; exact hp)]
        exact ih hrest

theorem countP_selectedText_congr {ts ts' : List CommentThread}
    (h : ts.map threadKey = ts'.map threadKey) (x : String) :
    ts.countP (fun th => th.selectedText == x)
      = ts'.countP (fun th => th.selectedText == x) := by
  induction ts generalizing ts' with
  | nil =>
    cases ts' with
    | nil => rfl
    | cons b bs => simp at h
  | cons a as ih =>
    cases ts' with
    | nil => simp at h
    | cons b bs =>
      simp only [List.map_cons, List.cons.injEq] at h
      obtain ⟨hab, hrest⟩ := h
      have hsel : a.selectedText = b.selectedText := congrArg Prod.snd hab
      rw [List.countP_cons, List.countP_cons, ih hrest, hsel]

/-- C1 counterexample: starting from no threads, `createThreadAndSend("abc",
"hi")` followed by `createThreadAndSend("abc", "yo")` leaves exactly the
state after the first call — the surviving thread's messages are `["hi"]`
and the non-empty second message `"yo"` was discarded by the dedup branch's
early return, not delivered into the existing thread as the claim states. -/
theorem claim_C1_counterexample :
    ((createThreadAndSend (createThreadAndSend
        { threads := [], activeThreadId := none, threadStreaming := none }
        none "id1" "abc" "hi" "conv1" { chunks := [], dropped := false } "u1" "a1")
        none "id2" "abc" "yo" "conv2" { chunks := [], dropped := false }
        "u2" "a2").threads.map
      (fun th => th.messages.map (fun m => m.content)))
      = [["hi"]]
    ∧ ¬ (∃ th ∈ (createThreadAndSend (createThreadAndSend
          { threads := [], activeThreadId := none, threadStreaming := none }
          none "id1" "abc" "hi" "conv1" { chunks := [], dropped := false } "u1" "a1")
          none "id2" "abc" "yo" "conv2" { chunks := [], dropped := false }
          "u2" "a2").threads,
         ∃ m ∈ th.messages, m.content = "yo") := by
  constructor
  · decide
  · decide

/-- C1 (amended): when no thread with `selectedText = t` exists, calling
`createThreadAndSend(t, m1)` and then `createThreadAndSend(t, m2)` leaves
exactly one thread with that `selectedText`; the second call creates no
thread and changes nothing except activating the existing thread (its id is
the first call's fresh id) — in particular the second message `m2` is
discarded rather than delivered into the existing thread. -/
theorem claim_C1_corrected (st : ChatPanelState) (hl1 hl2 : Option String)
    (id1 id2 t m1 m2 c1 c2 : String) (o1 o2 : StreamOutcome)
    (u1 a1 u2 a2 : String)
    (H : ∀ th ∈ st.threads, th.selectedText ≠ t) :
    ((createThreadAndSend (createThreadAndSend st hl1 id1 t m1 c1 o1 u1 a1)
        hl2 id2 t m2 c2 o2 u2 a2).threads
      = (createThreadAndSend st hl1 id1 t m1 c1 o1 u1 a1).threads)
    ∧ (createThreadAndSend (createThreadAndSend st hl1 id1 t m1 c1 o1 u1 a1)
        hl2 id2 t m2 c2 o2 u2 a2).activeThreadId = some id1
    ∧ (createThreadAndSend (createThreadAndSend st hl1 id1 t m1 c1 o1 u1 a1)
        hl2 id2 t m2 c2 o2 u2 a2).threads.countP
          (fun th => th.selectedText == t) = 1 := by
  have hfind0 : st.threads.find? (fun th => th.selectedText == t) = none :=
    List.find?_eq_none.mpr (fun x hx => by simpa using H x hx)
  have hkeys :
      (createThreadAndSend st hl1 id1 t m1 c1 o1 u1 a1).threads.map threadKey
        = st.threads.map threadKey ++ [(id1, t)] :=
    threadKey_createThreadAndSend_new st hl1 id1 t m1 c1 o1 u1 a1 hfind0
  have hkeys' :
      (createThreadAndSend st hl1 id1 t m1 c1 o1 u1 a1).threads.map threadKey
        = (st.threads
            ++ [(⟨id1, hl1, t, [], true, none⟩ : CommentThread)]).map threadKey := by
    rw [hkeys, List.map_append]
    rfl
  have hfindref :
      ((st.threads ++ [(⟨id1, hl1, t, [], true, none⟩ : CommentThread)]).find?
        (fun th => th.selectedText == t))
      = some (⟨id1, hl1, t, [], true, none⟩ : CommentThread) := by
    rw [List.find?_append, hfind0]
    simp
  have hfind1 :
      ((createThreadAndSend st hl1 id1 t m1 c1 o1 u1 a1).threads.find?
        (fun th => th.selectedText == t)).map threadKey = some (id1, t) := by
    rw [find?_selectedText_congr hkeys' t, hfindref]
    rfl
  rcases hex : (createThreadAndSend st hl1 id1 t m1 c1 o1 u1 a1).threads.find?
      (fun th => th.selectedText == t) with _ | existing
  · rw [hex] at hfind1
    exact absurd hfind1 (by simp)
  · rw [hex] at hfind1
    have hid : existing.id = id1 := by
      have := congrArg (fun o => Option.map Prod.fst o) hfind1
      simpa [threadKey] using this
    have hded := createThreadAndSend_dedup
      (createThreadAndSend st hl1 id1 t m1 c1 o1 u1 a1) hl2 id2 t m2 c2 o2
      u2 a2 existing hex
    rw [hded]
    refine ⟨rfl, by rw [hid], ?_⟩
    show (createThreadAndSend st hl1 id1 t m1 c1 o1 u1 a1).threads.countP
      (fun th => th.selectedText == t) = 1
    rw [countP_selectedText_congr hkeys' t, List.countP_append]
    have hzero : st.threads.countP (fun th => th.selectedText == t) = 0 := by
      rw [List.countP_eq_zero]
      intro a ha
      simpa using H a ha
    rw [hzero]
    simp

/-- Witness for C1 (amended) at the empty panel. -/
theorem claim_C1_witness :
    (createThreadAndSend (createThreadAndSend
        { threads := [], activeThreadId := none, threadStreaming := none }
        none "id1" "abc" "hi" "conv1" { chunks := [], dropped := false } "u1" "a1")
        none "id2" "abc" "yo" "conv2" { chunks := [], dropped := false }
        "u2" "a2").activeThreadId = some "id1"
    ∧ (createThreadAndSend (createThreadAndSend
        { threads := [], activeThreadId := none, threadStreaming := none }
        none "id1" "abc" "hi" "conv1" { chunks := [], dropped := false } "u1" "a1")
        none "id2" "abc" "yo" "conv2" { chunks := [], dropped := false }
        "u2" "a2").threads.countP (fun th => th.selectedText == "abc") = 1 := by
  have h := claim_C1_corrected
    { threads := [], activeThreadId := none, threadStreaming := none }
    none none "id1" "id2" "abc" "hi" "yo" "conv1" "conv2"
    { chunks := [], dropped := false } { chunks := [], dropped := false }
    "u1" "a1" "u2" "a2" (by simp)
  exact ⟨h.2.1, h.2.2⟩

/-- C8: for every stream payload (as decoded text) and every way of
partitioning it into read chunks, the buffering loop yields exactly the
sequence of delimiter-terminated parts that the reference computation —
one split of the whole concatenated payload on the literal
`END_OF_STREAM` — produces; consequently folding either handler's
per-event processing over the loop's output gives the same accumulated
assistant content (thread panel) and the same content-plus-references
state (overview chat) as processing the reference parts. -/
theorem claim_C8 (chunks : List Chars) :
    (streamLoop END_DELIMITER chunks []).1
        = referenceEvents END_DELIMITER chunks.flatten
    ∧ (streamLoop END_DELIMITER chunks []).1.foldl threadProcessPart ""
        = (referenceEvents END_DELIMITER chunks.flatten).foldl threadProcessPart ""
    ∧ (streamLoop END_DELIMITER chunks []).1.foldl overviewProcessPart
          { acc := "", refs := none }
        = (referenceEvents END_DELIMITER chunks.flatten).foldl overviewProcessPart
          { acc := "", refs := none } := by
  have h := streamLoop_eq_referenceEvents END_DELIMITER chunks
  exact ⟨h, by rw [h], by rw [h]⟩

theorem readCitation_encodeCitation (c : Citation) :
    readCitation (encodeCitation c) = some c := by
  cases c
  rfl

theorem readCitationList_encode (cs : List Citation) :
    readCitationList (jarrOfList (cs.map encodeCitation)) = some cs := by
  induction cs with
  | nil => rfl
  | cons c rest ih =>
    simp only [List.map_cons, jarrOfList, readCitationList,
      readCitation_encodeCitation, ih]

theorem readReferences_encodeReferences (r : References) :
    readReferences (encodeReferences r) = some r := by
  cases r with
  | mk cs =>
    simp only [encodeReferences, jobjOfFields, readReferences, getField]
    simp [readCitationList_encode]

theorem decodeMessage_encodeMessage (m : ChatMessage) :
    decodeMessage (encodeMessage m) = some m := by
  rcases m with ⟨role, content, refs, mid⟩
  rcases refs with _ | r <;> rcases mid with _ | i <;> cases role <;>
    simp [encodeMessage, decodeMessage, optField, roleToString, getField,
      jobjOfFields, decodeRole, decodeString, decodeOptString,
      decodeReferencesField, readReferences_encodeReferences]

theorem decodeMessageList_encode (ms : List ChatMessage) :
    decodeMessageList (jarrOfList (ms.map encodeMessage)) = some ms := by
  induction ms with
  | nil => rfl
  | cons m rest ih =>
    simp only [List.map_cons, jarrOfList, decodeMessageList,
      decodeMessage_encodeMessage, ih]

theorem decodeThread_encodeThread (t : CommentThread) :
    decodeThread (encodeThread t) = some t := by
  rcases t with ⟨tid, hid, sel, ms, exp, cid⟩
  rcases hid with _ | h <;> rcases cid with _ | c <;>
    simp [encodeThread, decodeThread, optField, getField, jobjOfFields,
      decodeString, decodeOptString, decodeBool, decodeMessageList_encode]

/-- C6: serializing a document's `CommentThread[]` to the
`comment-threads-<id>` localStorage value (the structural value
`JSON.stringify` emits, `undefined` fields omitted) and reading it back
the way the load effect does reproduces the collection exactly — in
particular the same thread ids, the same message order within each thread
and the same `selectedText` values.  The non-emptiness hypothesis mirrors
the save effect's `commentThreads.length > 0` guard; the JSON text layer
(`parse ∘ stringify` on the serialized value) is the browser's guarantee
and is outside this repository. -/
theorem claim_C6 (ts : List CommentThread) (_hne : ts ≠ []) :
    decodeThreads (encodeThreads ts) = some ts := by
  clear _hne
  induction ts with
  | nil => rfl
  | cons t rest ih =>
    simp only [encodeThreads, List.map_cons, jarrOfList, decodeThreads,
      decodeThread_encodeThread]
    rw [show jarrOfList (rest.map encodeThread) = encodeThreads rest from rfl, ih]

/-- Witness for C6 at a concrete two-thread collection. -/
theorem claim_C6_witness :
    decodeThreads (encodeThreads
      [{ id := "t1", highlightId := some "h1", selectedText := "abc",
         messages := [{ role := .user, content := "q", references := none,
                        id := some "m1" },
                      { role := .assistant, content := "r",
                        references := some { citations :=
                          [{ key := "1", reference := "foo" }] },
                        id := none }],
         isExpanded := true, conversationId := some "c1" },
       { id := "t2", highlightId := none, selectedText := "xyz",
         messages := [], isExpanded := false, conversationId := none }])
      = some
      [{ id := "t1", highlightId := some "h1", selectedText := "abc",
         messages := [{ role := .user, content := "q", references := none,
                        id := some "m1" },
                      { role := .assistant, content := "r",
                        references := some { citations :=
                          [{ key := "1", reference := "foo" }] },
                        id := none }],
         isExpanded := true, conversationId := some "c1" },
       { id := "t2", highlightId := none, selectedText := "xyz",
         messages := [], isExpanded := false, conversationId := none }] :=
  claim_C6 _ (by simp)

theorem setSelectedTextFromFirstUser_id (t : CommentThread) :
    (setSelectedTextFromFirstUser t).id = t.id := by
  rw [setSelectedTextFromFirstUser]
  split <;> rfl

theorem setSelectedTextFromFirstUser_messages (t : CommentThread) :
    (setSelectedTextFromFirstUser t).messages = t.messages := by
  rw [setSelectedTextFromFirstUser]
  split <;> rfl

theorem setSelectedTextFromFirstUser_selectedText (t : CommentThread) :
    (setSelectedTextFromFirstUser t).selectedText
      = match t.messages.find? (fun m => m.role == Role.user) with
        | some fm => fm.content
        | none => t.selectedText := by
  rw [setSelectedTextFromFirstUser]
  rcases h : t.messages.find? (fun m => m.role == Role.user) with _ | fm <;>
    simp [h]

/-- Updating all entries under one key rewrites the first entry found under
that key. -/
theorem find?_mapUpdate_eq (acc : List (String × CommentThread)) (tid : String)
    (g : CommentThread → CommentThread) :
    ((acc.map (fun p => if p.1 == tid then (p.1, g p.2) else p)).find?
        (fun q => q.1 == tid))
      = (acc.find? (fun q => q.1 == tid)).map (fun p => (p.1, g p.2)) := by
  induction acc with
  | nil => rfl
  | cons a as ih =>
    rw [List.map_cons]
    by_cases h : a.1 == tid
    · rw [if_pos h]
      rw [List.find?_cons_of_pos (p := fun q : String × CommentThread => q.1 == tid)
        (a := (a.1, g a.2)) _ h]
      rw [List.find?_cons_of_pos (p := fun q : String × CommentThread => q.1 == tid)
        (a := a) _ h]
      rfl
    · rw [if_neg h]
      rw [List.find?_cons_of_neg (p := fun q : String × CommentThread => q.1 == tid)
        (a := a) _ h]
      rw [List.find?_cons_of_neg (p := fun q : String × CommentThread => q.1 == tid)
        (a := a) _ h]
      exact ih

/-- Updating entries under a *different* key leaves the lookup unchanged. -/
theorem find?_mapUpdate_ne (acc : List (String × CommentThread))
    {tid tid' : String} (hne : tid' ≠ tid) (g : CommentThread → CommentThread) :
    ((acc.map (fun p => if p.1 == tid' then (p.1, g p.2) else p)).find?
        (fun q => q.1 == tid))
      = acc.find? (fun q => q.1 == tid) := by
  induction acc with
  | nil => rfl
  | cons a as ih =>
    rw [List.map_cons]
    by_cases h : a.1 == tid
    · have ha : a.1 = tid := by simpa using h
      have h' : (a.1 == tid') = false := by
        simp [ha]
        exact fun hcontra => hne hcontra.symm
      rw [if_neg (by simp [h'])]
      rw [List.find?_cons_of_pos (p := fun q : String × CommentThread => q.1 == tid)
        (a := a) _ h]
      rw [List.find?_cons_of_pos (p := fun q : String × CommentThread => q.1 == tid)
        (a := a) _ h]
    · by_cases h2 : a.1 == tid'
      · rw [if_pos h2]
        rw [List.find?_cons_of_neg (p := fun q : String × CommentThread => q.1 == tid)
          (a := (a.1, g a.2)) _ h]
        rw [List.find?_cons_of_neg (p := fun q : String × CommentThread => q.1 == tid)
          (a := a) _ h]
        exact ih
      · rw [if_neg h2]
        rw [List.find?_cons_of_neg (p := fun q : String × CommentThread => q.1 == tid)
          (a := a) _ h]
        rw [List.find?_cons_of_neg (p := fun q : String × CommentThread => q.1 == tid)
          (a := a) _ h]
        exact ih

/-- If the accumulator already holds an entry for `tid`, the whole fold
appends exactly the converted rows for `tid`, in history order, to that
entry's messages. -/
theorem groupFold_find?_some (history : List HistoryMsg) :
    ∀ (acc : List (String × CommentThread)) (tid : String)
      (p : String × CommentThread),
      acc.find? (fun q => q.1 == tid) = some p →
      (history.foldl groupStep acc).find? (fun q => q.1 == tid)
        = some (p.1, { p.2 with messages := p.2.messages ++ (history.filter (fun m => m.thread_id == some tid)).map historyToChatMessage }) := by
  induction history with
  | nil =>
    intro acc tid p hp
    rw [List.foldl_nil, hp]
    simp
  | cons m rest ih =>
    intro acc tid p hp
    rw [List.foldl_cons]
    rcases hm : m.thread_id with _ | tid'
    · have hstep : groupStep acc m = acc := by simp only [groupStep, hm]
      have hfil : (m :: rest).filter (fun r => r.thread_id == some tid)
          = rest.filter (fun r => r.thread_id == some tid) := by
        rw [List.filter_cons]
        simp [hm]
      rw [hstep, hfil]
      exact ih acc tid p hp
    · by_cases e : tid' = tid
      · subst e
        have hpp : (p.1 == tid') = true :=
          List.find?_some (p := fun q : String × CommentThread => q.1 == tid') hp
        have hpmem : p ∈ acc :=
          List.mem_of_find?_eq_some
            (p := fun q : String × CommentThread => q.1 == tid') hp
        have hany : acc.any (fun q => q.1 == tid') = true := by
          rw [List.any_eq_true]
          exact ⟨p, hpmem, hpp⟩
        have hstep : groupStep acc m
            = acc.map (fun q => if q.1 == tid' then
                (q.1, { q.2 with
                  messages := q.2.messages ++ [historyToChatMessage m] })
                else q) := by
          simp only [groupStep, hm]
          rw [if_pos hany]
        have hfind' : (acc.map (fun q => if q.1 == tid' then
              (q.1, { q.2 with
                messages := q.2.messages ++ [historyToChatMessage m] })
              else q)).find? (fun q => q.1 == tid')
            = some (p.1, { p.2 with
                messages := p.2.messages ++ [historyToChatMessage m] }) := by
          rw [find?_mapUpdate_eq acc tid'
            (fun th => { th with messages := th.messages ++ [historyToChatMessage m] }),
            hp]
          rfl
        have hfil : (m :: rest).filter (fun r => r.thread_id == some tid')
            = m :: rest.filter (fun r => r.thread_id == some tid') := by
          rw [List.filter_cons]
          simp [hm]
        rw [hstep, hfil, ih _ tid' _ hfind']
        simp [List.append_assoc]
      · have hfil : (m :: rest).filter (fun r => r.thread_id == some tid)
            = rest.filter (fun r => r.thread_id == some tid) := by
          rw [List.filter_cons]
          simp [hm, e]
        rw [hfil]
        by_cases hany : acc.any (fun q => q.1 == tid') = true
        · have hstep : groupStep acc m
              = acc.map (fun q => if q.1 == tid' then
                  (q.1, { q.2 with
                    messages := q.2.messages ++ [historyToChatMessage m] })
                  else q) := by
            simp only [groupStep, hm]
            rw [if_pos hany]
          rw [hstep]
          refine ih _ tid p ?_
          rw [find?_mapUpdate_ne acc e
            (fun th => { th with messages := th.messages ++ [historyToChatMessage m] })]
          exact hp
        · have hstep : groupStep acc m
              = acc ++ [(tid',
                { id := tid', highlightId := none, selectedText := "",
                  messages := [historyToChatMessage m], isExpanded := false,
                  conversationId := none })] := by
            simp only [groupStep, hm]
            rw [if_neg hany]
          rw [hstep]
          refine ih _ tid p ?_
          rw [List.find?_append, hp]
          rfl

/-- If the accumulator holds no entry for `tid`, the fold creates one at
the first row carrying `tid` (if any), ending with exactly the converted
rows for `tid` in history order and the empty initial `selectedText`. -/
theorem groupFold_find?_none (history : List HistoryMsg) :
    ∀ (acc : List (String × CommentThread)) (tid : String),
      acc.find? (fun q => q.1 == tid) = none →
      (history.foldl groupStep acc).find? (fun q => q.1 == tid)
        = if (history.filter (fun m => m.thread_id == some tid)) = [] then none
          else some (tid, { id := tid, highlightId := none, selectedText := "", messages := (history.filter (fun m => m.thread_id == some tid)).map historyToChatMessage, isExpanded := false, conversationId := none }) := by
  induction history with
  | nil =>
    intro acc tid hp
    rw [List.foldl_nil, hp]
    simp
  | cons m rest ih =>
    intro acc tid hp
    rw [List.foldl_cons]
    rcases hm : m.thread_id with _ | tid'
    · have hstep : groupStep acc m = acc := by simp only [groupStep, hm]
      have hfil : (m :: rest).filter (fun r => r.thread_id == some tid)
          = rest.filter (fun r => r.thread_id == some tid) := by
        rw [List.filter_cons]
        simp [hm]
      rw [hstep, hfil]
      exact ih acc tid hp
    · by_cases e : tid' = tid
      · subst e
        have hany : acc.any (fun q => q.1 == tid') = false := by
          rw [Bool.eq_false_iff]
          intro hcontra
          rw [List.any_eq_true] at hcontra
          obtain ⟨x, hx, hpx⟩ := hcontra
          rw [List.find?_eq_none] at hp
          exact hp x hx hpx
        have hstep : groupStep acc m
            = acc ++ [(tid',
              { id := tid', highlightId := none, selectedText := "",
                messages := [historyToChatMessage m], isExpanded := false,
                conversationId := none })] := by
          simp only [groupStep, hm]
          rw [if_neg (by simp [hany])]
        have hfind' : (acc ++ [(tid',
              ({ id := tid', highlightId := none, selectedText := "",
                 messages := [historyToChatMessage m], isExpanded := false,
                 conversationId := none } : CommentThread))]).find?
              (fun q => q.1 == tid')
            = some (tid',
              { id := tid', highlightId := none, selectedText := "",
                messages := [historyToChatMessage m], isExpanded := false,
                conversationId := none }) := by
          rw [List.find?_append, hp]
          simp
        have hfil : (m :: rest).filter (fun r => r.thread_id == some tid')
            = m :: rest.filter (fun r => r.thread_id == some tid') := by
          rw [List.filter_cons]
          simp [hm]
        rw [hstep, hfil, groupFold_find?_some rest _ tid' _ hfind']
        rw [if_neg (by simp)]
        simp
      · have hfil : (m :: rest).filter (fun r => r.thread_id == some tid)
            = rest.filter (fun r => r.thread_id == some tid) := by
          rw [List.filter_cons]
          simp [hm, e]
        rw [hfil]
        by_cases hany : acc.any (fun q => q.1 == tid') = true
        · have hstep : groupStep acc m
              = acc.map (fun q => if q.1 == tid' then
                  (q.1, { q.2 with
                    messages := q.2.messages ++ [historyToChatMessage m] })
                  else q) := by
            simp only [groupStep, hm]
            rw [if_pos hany]
          rw [hstep]
          refine ih _ tid ?_
          rw [find?_mapUpdate_ne acc e
            (fun th => { th with messages := th.messages ++ [historyToChatMessage m] })]
          exact hp
        · have hstep : groupStep acc m
              = acc ++ [(tid',
                { id := tid', highlightId := none, selectedText := "",
                  messages := [historyToChatMessage m], isExpanded := false,
                  conversationId := none })] := by
            simp only [groupStep, hm]
            rw [if_neg hany]
          rw [hstep]
          refine ih _ tid ?_
          rw [List.find?_append, hp]
          simp [e]

/-- The grouped object's keys are the rows' thread ids in first-occurrence
(history) order, as JS object insertion order gives for these ids. -/
theorem groupFold_keys (history : List HistoryMsg) :
    ∀ acc : List (String × CommentThread),
      (history.foldl groupStep acc).map Prod.fst
        = (history.filterMap (fun m => m.thread_id)).foldl
            (fun ks tid => if tid ∈ ks then ks else ks ++ [tid])
            (acc.map Prod.fst) := by
  induction history with
  | nil => intro acc; rfl
  | cons m rest ih =>
    intro acc
    rw [List.foldl_cons]
    rcases hm : m.thread_id with _ | tid
    · have hstep : groupStep acc m = acc := by simp only [groupStep, hm]
      have hfm : (m :: rest).filterMap (fun r => r.thread_id)
          = rest.filterMap (fun r => r.thread_id) := by
        rw [List.filterMap_cons]
        simp [hm]
      rw [hstep, hfm]
      exact ih acc
    · have hfm : (m :: rest).filterMap (fun r => r.thread_id)
          = tid :: rest.filterMap (fun r => r.thread_id) := by
        rw [List.filterMap_cons]
        simp [hm]
      rw [hfm, List.foldl_cons]
      by_cases hany : acc.any (fun q => q.1 == tid) = true
      · have hmem : tid ∈ acc.map Prod.fst := by
          rw [List.any_eq_true] at hany
          obtain ⟨x, hx, hpx⟩ := hany
          exact List.mem_map.mpr ⟨x, hx, by simpa using hpx⟩
        have hstep : groupStep acc m
            = acc.map (fun q => if q.1 == tid then
                (q.1, { q.2 with
                  messages := q.2.messages ++ [historyToChatMessage m] })
                else q) := by
          simp only [groupStep, hm]
          rw [if_pos hany]
        have hkeys : (acc.map (fun q => if q.1 == tid then
              (q.1, { q.2 with
                messages := q.2.messages ++ [historyToChatMessage m] })
              else q)).map Prod.fst = acc.map Prod.fst := by
          rw [List.map_map]
          apply List.map_congr_left
          intro q _
          simp only [Function.comp_apply]
          split <;> rfl
        rw [hstep, if_pos hmem, ih _, hkeys]
      · have hnmem : tid ∉ acc.map Prod.fst := by
          intro hcontra
          obtain ⟨x, hx, hfx⟩ := List.mem_map.mp hcontra
          exact absurd (List.any_eq_true.mpr ⟨x, hx, by simp [hfx]⟩) hany
        have hstep : groupStep acc m
            = acc ++ [(tid,
              { id := tid, highlightId := none, selectedText := "",
                messages := [historyToChatMessage m], isExpanded := false,
                conversationId := none })] := by
          simp only [groupStep, hm]
          rw [if_neg hany]
        rw [hstep, if_neg hnmem, ih _, List.map_append]
        rfl

/-- The grouped object never holds two entries with the same key. -/
theorem groupFold_keys_nodup (history : List HistoryMsg) :
    ∀ acc : List (String × CommentThread),
      (acc.map Prod.fst).Nodup →
      ((history.foldl groupStep acc).map Prod.fst).Nodup := by
  induction history with
  | nil => intro acc h; exact h
  | cons m rest ih =>
    intro acc h
    rw [List.foldl_cons]
    apply ih
    rcases hm : m.thread_id with _ | tid
    · have hstep : groupStep acc m = acc := by simp only [groupStep, hm]
      rw [hstep]
      exact h
    · by_cases hany : acc.any (fun q => q.1 == tid) = true
      · have hstep : groupStep acc m
            = acc.map (fun q => if q.1 == tid then
                (q.1, { q.2 with
                  messages := q.2.messages ++ [historyToChatMessage m] })
                else q) := by
          simp only [groupStep, hm]
          rw [if_pos hany]
        have hkeys : (acc.map (fun q => if q.1 == tid then
              (q.1, { q.2 with
                messages := q.2.messages ++ [historyToChatMessage m] })
              else q)).map Prod.fst = acc.map Prod.fst := by
          rw [List.map_map]
          apply List.map_congr_left
          intro q _
          simp only [Function.comp_apply]
          split <;> rfl
        rw [hstep, hkeys]
        exact h
      · have hnmem : tid ∉ acc.map Prod.fst := by
          intro hcontra
          obtain ⟨x, hx, hfx⟩ := List.mem_map.mp hcontra
          exact absurd (List.any_eq_true.mpr ⟨x, hx, by simp [hfx]⟩) hany
        have hstep : groupStep acc m
            = acc ++ [(tid,
              { id := tid, highlightId := none, selectedText := "",
                messages := [historyToChatMessage m], isExpanded := false,
                conversationId := none })] := by
          simp only [groupStep, hm]
          rw [if_neg hany]
        rw [hstep, List.map_append]
        show (List.map Prod.fst acc ++ [tid]).Nodup
        rw [← List.concat_eq_append]
        exact List.Nodup.concat hnmem h

/-- With unique keys, every member of the association list is what lookup
by its own key returns. -/
theorem find?_eq_of_mem_nodupKeys :
    ∀ (acc : List (String × CommentThread)), (acc.map Prod.fst).Nodup →
      ∀ p ∈ acc, acc.find? (fun q => q.1 == p.1) = some p := by
  intro acc
  induction acc with
  | nil => intro _ p hp; simp at hp
  | cons a as ih =>
    intro hnd p hp
    rcases List.mem_cons.mp hp with rfl | hp'
    · exact List.find?_cons_of_pos
        (p := fun q : String × CommentThread => q.1 == p.1) (a := p) _ (by simp)
    · have hne : ¬ (a.1 == p.1) = true := by
        intro hcontra
        have heq : a.1 = p.1 := by simpa using hcontra
        rw [List.map_cons] at hnd
        exact (List.nodup_cons.mp hnd).1
          (heq ▸ List.mem_map.mpr ⟨p, hp', rfl⟩)
      rw [List.find?_cons_of_neg
        (p := fun q : String × CommentThread => q.1 == p.1) (a := a) _ hne]
      exact ih (by rw [List.map_cons] at hnd; exact (List.nodup_cons.mp hnd).2) p hp'

/-- Every grouped entry's thread carries its key as its id. -/
theorem groupFold_id_eq_key (history : List HistoryMsg) :
    ∀ acc : List (String × CommentThread), (∀ p ∈ acc, p.2.id = p.1) →
      ∀ p ∈ history.foldl groupStep acc, p.2.id = p.1 := by
  induction history with
  | nil => intro acc h; exact h
  | cons m rest ih =>
    intro acc h
    rw [List.foldl_cons]
    apply ih
    intro p hp
    rcases hm : m.thread_id with _ | tid
    · have hstep : groupStep acc m = acc := by simp only [groupStep, hm]
      rw [hstep] at hp
      exact h p hp
    · by_cases hany : acc.any (fun q => q.1 == tid) = true
      · have hstep : groupStep acc m
            = acc.map (fun q => if q.1 == tid then
                (q.1, { q.2 with
                  messages := q.2.messages ++ [historyToChatMessage m] })
                else q) := by
          simp only [groupStep, hm]
          rw [if_pos hany]
        rw [hstep] at hp
        obtain ⟨q, hq, hfq⟩ := List.mem_map.mp hp
        by_cases hqt : q.1 == tid
        · rw [if_pos hqt] at hfq
          rw [← hfq]
          exact h q hq
        · rw [if_neg hqt] at hfq
          rw [← hfq]
          exact h q hq
      · have hstep : groupStep acc m
            = acc ++ [(tid,
              { id := tid, highlightId := none, selectedText := "",
                messages := [historyToChatMessage m], isExpanded := false,
                conversationId := none })] := by
          simp only [groupStep, hm]
          rw [if_neg hany]
        rw [hstep] at hp
        rcases List.mem_append.mp hp with hq | hq
        · exact h p hq
        · have : p = (tid,
              { id := tid, highlightId := none, selectedText := "",
                messages := [historyToChatMessage m], isExpanded := false,
                conversationId := none }) := by simpa using hq
          rw [this]

/-- C10: rehydrating comment threads from the chat-history rows drops every
row without a `thread_id`; the remaining rows are grouped into threads by
`thread_id` in history order — the rebuilt thread ids are the distinct
`thread_id`s in first-occurrence order, and each rebuilt thread's messages
are exactly its rows, converted, in history order — and each thread's
`selectedText` is the content of its first user-role message, remaining
`""` when the thread has no user message. -/
theorem claim_C10 (history : List HistoryMsg) :
    ((loadChatHistory history).map (fun th => th.id)
      = (history.filterMap (fun m => m.thread_id)).foldl
          (fun ks tid => if tid ∈ ks then ks else ks ++ [tid]) [])
    ∧ (∀ th ∈ loadChatHistory history,
        th.messages = (history.filter
          (fun m => m.thread_id == some th.id)).map historyToChatMessage)
    ∧ (∀ th ∈ loadChatHistory history,
        th.selectedText
          = match th.messages.find? (fun m => m.role == Role.user) with
            | some fm => fm.content
            | none => "") := by
  have hnodup : ((history.foldl groupStep []).map Prod.fst).Nodup :=
    groupFold_keys_nodup history [] (by simp)
  have hidkey : ∀ p ∈ history.foldl groupStep [], p.2.id = p.1 :=
    groupFold_id_eq_key history [] (by simp)
  have hentry : ∀ p ∈ history.foldl groupStep [],
      p.2 = { id := p.1, highlightId := none, selectedText := "", messages := (history.filter (fun m => m.thread_id == some p.1)).map historyToChatMessage, isExpanded := false, conversationId := none } := by
    intro p hp
    have hfind := find?_eq_of_mem_nodupKeys _ hnodup p hp
    have hnone := groupFold_find?_none history [] p.1 rfl
    rw [hfind] at hnone
    by_cases hfil : history.filter (fun m => m.thread_id == some p.1) = []
    · rw [if_pos hfil] at hnone
      exact absurd hnone (by simp)
    · rw [if_neg hfil] at hnone
      injection hnone with h2
      have := congrArg Prod.snd h2
      simpa using this
  refine ⟨?_, ?_, ?_⟩
  · have hids : (loadChatHistory history).map (fun th => th.id)
        = (history.foldl groupStep []).map Prod.fst := by
      rw [loadChatHistory, List.map_map, List.map_map]
      apply List.map_congr_left
      intro p hp
      simp only [Function.comp_apply]
      rw [setSelectedTextFromFirstUser_id]
      exact hidkey p hp
    rw [hids, groupFold_keys history []]
    rfl
  · intro th hth
    rw [loadChatHistory] at hth
    obtain ⟨t0, ht0, rfl⟩ := List.mem_map.mp hth
    obtain ⟨p, hp, rfl⟩ := List.mem_map.mp ht0
    rw [setSelectedTextFromFirstUser_messages, setSelectedTextFromFirstUser_id]
    rw [hidkey p hp]
    have := congrArg CommentThread.messages (hentry p hp)
    simpa using this
  · intro th hth
    rw [loadChatHistory] at hth
    obtain ⟨t0, ht0, rfl⟩ := List.mem_map.mp hth
    obtain ⟨p, hp, rfl⟩ := List.mem_map.mp ht0
    rw [setSelectedTextFromFirstUser_selectedText,
      setSelectedTextFromFirstUser_messages]
    have hsel : p.2.selectedText = "" := by
      have := congrArg CommentThread.selectedText (hentry p hp)
      simpa using this
    rw [hsel]

/-- Witness for C10: a four-row history (one row without a `thread_id`,
which is dropped; two rows for `t1`; one assistant-only row for `t2`),
instantiating the per-thread message characterization at the rebuilt `t2`
thread. -/
theorem claim_C10_witness :
    ({ id := "t2", highlightId := none, selectedText := "", messages := [{ role := .assistant, content := "b", references := none, id := none }], isExpanded := false, conversationId := none } : CommentThread).messages
      = (([{ role := .user, message := "q1", thread_id := some "t1", references := none }, { role := .assistant, message := "x", thread_id := none, references := none }, { role := .assistant, message := "a1", thread_id := some "t1", references := none }, { role := .assistant, message := "b", thread_id := some "t2", references := none }] : List HistoryMsg).filter (fun m => m.thread_id == some "t2")).map historyToChatMessage := by
  exact (claim_C10 [{ role := .user, message := "q1", thread_id := some "t1", references := none }, { role := .assistant, message := "x", thread_id := none, references := none }, { role := .assistant, message := "a1", thread_id := some "t1", references := none }, { role := .assistant, message := "b", thread_id := some "t2", references := none }]).2.1
    { id := "t2", highlightId := none, selectedText := "", messages := [{ role := .assistant, content := "b", references := none, id := none }], isExpanded := false, conversationId := none }
    (by decide)

end ZhiLog
